import Mathlib

/-!
Verification development for the `file-organizer` repository.

The Python source under `src/file_organizer/` is shallowly embedded here:

* `config.py`   → `Config`, `DEFAULT_CONFIG`
* `utils.py`    → `get_file_age_days`, `is_auto_deletable`, `compute_file_hash`,
                  `generate_unique_filename`, `get_category`,
                  `should_skip_for_duplicates`, ...
* `operations.py` → `organize_files`, `archive_old_files`, `cleanup_temp_files`,
                  `find_duplicates`, `handle_duplicates`

Modelling conventions:

* A filesystem is a finite list of regular files (`FS`).  Each file carries its
  path (components relative to the scanned root), its byte content, and its
  last-modification time in whole seconds.  Directories are implicit: a path is
  a directory when it is a proper prefix of some file's path.  Filesystems with
  empty directories are outside the model.
* Directory-enumeration order (`os.scandir`, hence `Path.iterdir`/`Path.rglob`)
  is unspecified in Python; the model uses the order of the `FS` list.
* `datetime` values are modelled at whole-second resolution as `Int` seconds.
  The timestamp string produced by `datetime.now().strftime("%Y%m%d_%H%M%S")`
  inside `generate_unique_filename` is an explicit parameter `ts`.
* Runs additionally accumulate a ghost trace (`FsOp`) of the filesystem
  operations attempted, used only to state theorems; it does not influence
  the computation.
-/

namespace FileOrg

/-! ### Paths and names (pathlib model) -/

abbrev FPath := List String

/-- A regular file: path components relative to the scanned root, byte
content, and last-modification time in seconds. -/
structure FSFile where
  path : FPath
  content : List Nat
  mtime : Int
  deriving DecidableEq, Repr

abbrev FS := List FSFile

/-- Python `Path.name`: the final path component. -/
def FSFile.name (f : FSFile) : String := (f.path.getLast?).getD ""

/-- Index of the last `'.'` in a character list, if any. -/
def lastDotIdx (cs : List Char) : Option Nat :=
  match cs.reverse.findIdx? (· == '.') with
  | none => none
  | some j => some (cs.length - 1 - j)

/-- Python `Path.suffix`: `name[i:]` where `i = name.rfind('.')`, provided
`0 < i < len(name) - 1`; otherwise the empty string. -/
def fileSuffix (name : String) : String :=
  let cs := name.toList
  match lastDotIdx cs with
  | none => ""
  | some i => if 0 < i ∧ i < cs.length - 1 then String.mk (cs.drop i) else ""

/-- Python `Path.stem`: the name with its suffix removed (same guard as
`fileSuffix`). -/
def fileStem (name : String) : String :=
  let cs := name.toList
  match lastDotIdx cs with
  | none => name
  | some i => if 0 < i ∧ i < cs.length - 1 then String.mk (cs.take i) else name

/-- Kernel-computable model of `str.startswith` (`String.startsWith`'s
well-founded recursion does not reduce in the kernel): prefix test on the
character lists. -/
def strStartsWith (s pre : String) : Bool := pre.toList.isPrefixOf s.toList

/-- Kernel-computable model of `str.lower` (`String.toLower` is defined via
`String.map`, again well-founded recursion): lowercase each character. -/
def strToLower (s : String) : String := String.mk (s.toList.map Char.toLower)

/-! ### Configuration (`config.py`) -/

/-- Embedding of `config.Config`.  Field defaults are the Python defaults.
`categories` is an insertion-ordered association list mirroring the Python
dict.  The Python field `special_folder_prefix` is spelled
`special_folder_pfx` here. -/
structure Config where
  archive_age_days : Int := 30
  archive_folder : String := "_Archive"
  auto_delete_extensions : List String := [".ica"]
  auto_delete_age_days : Int := 1
  large_file_threshold_bytes : Nat := 1073741824
  large_files_folder : String := "_LargeFiles"
  recents_age_hours : ℚ := 24
  recents_folder : String := "_Recents"
  duplicates_folder : String := "_Duplicates"
  hash_buffer_size : Nat := 8192
  categories : List (String × List String) := [
    ("Images", [".jpg", ".jpeg", ".png", ".gif", ".bmp", ".svg", ".webp", ".ico", ".tiff", ".heic"]),
    ("Documents", [".pdf", ".doc", ".docx", ".txt", ".rtf", ".odt", ".xls", ".xlsx", ".ppt", ".pptx", ".csv"]),
    ("Audio", [".mp3", ".wav", ".flac", ".aac", ".ogg", ".wma", ".m4a"]),
    ("Video", [".mp4", ".avi", ".mkv", ".mov", ".wmv", ".flv", ".webm", ".m4v"]),
    ("Archives", [".zip", ".rar", ".7z", ".tar", ".gz", ".bz2", ".xz"]),
    ("Code", [".py", ".js", ".ts", ".html", ".css", ".json", ".xml", ".yml", ".yaml", ".md", ".sh", ".c", ".cpp", ".h", ".java", ".go", ".rs"]),
    ("Executables", [".exe", ".msi", ".dmg", ".app", ".deb", ".rpm"]),
    ("Fonts", [".ttf", ".otf", ".woff", ".woff2"])]
  default_category : String := "Other"
  special_folder_pfx : String := "_"
  deriving DecidableEq, Repr

def DEFAULT_CONFIG : Config := {}

/-- `Config.get_category`: first category (in insertion order) whose extension
set contains the lowercased extension; `default_category` otherwise. -/
def Config.get_category (cfg : Config) (extension : String) : String :=
  let extLower := strToLower extension
  match cfg.categories.find? (fun c => c.2.contains extLower) with
  | some c => c.1
  | none => cfg.default_category

/-- `Config.is_special_folder`: name starts with the special folder prefix. -/
def Config.is_special_folder (cfg : Config) (name : String) : Bool :=
  strStartsWith name cfg.special_folder_pfx

/-- `Config.is_hidden`: name starts with a dot. -/
def Config.is_hidden (_cfg : Config) (name : String) : Bool :=
  strStartsWith name "."

/-! ### Pure utilities (`utils.py`) -/

/-- `utils.get_file_age_days`: `(now - mtime).days`.  Python's
`timedelta.days` is the floor (toward negative infinity) of the duration in
whole days, because a `timedelta` is normalized to `0 <= seconds < 86400`. -/
def get_file_age_days (now mtime : Int) : Int := Int.fdiv (now - mtime) 86400

/-- `utils.get_file_age_hours`: exact duration in hours. -/
def get_file_age_hours (now mtime : Int) : ℚ := ((now - mtime : Int) : ℚ) / 3600

/-- `utils.is_old_file` with `days = config.archive_age_days` (strict `>`). -/
def is_old_file (cfg : Config) (now mtime : Int) : Bool :=
  decide (cfg.archive_age_days < get_file_age_days now mtime)

/-- `utils.is_recent_file` with `hours = config.recents_age_hours`
(strict `<`). -/
def is_recent_file (cfg : Config) (now mtime : Int) : Bool :=
  decide (get_file_age_hours now mtime < cfg.recents_age_hours)

/-- `utils.is_large_file` (strict `>`); the size of a file is the length of
its content. -/
def is_large_file (cfg : Config) (size : Nat) : Bool :=
  decide (cfg.large_file_threshold_bytes < size)

/-- `utils.is_auto_deletable`: lowercased suffix is in
`auto_delete_extensions` and the age strictly exceeds
`auto_delete_age_days`. -/
def is_auto_deletable (cfg : Config) (now : Int) (f : FSFile) : Bool :=
  let ext := strToLower (fileSuffix f.name)
  cfg.auto_delete_extensions.contains ext &&
    decide (cfg.auto_delete_age_days < get_file_age_days now f.mtime)

/-- Fixed two-decimal rendering of a nonnegative rational, for `"%.2f"`.
Python formats binary doubles with round-half-even; the model rounds half up
on exact rationals.  The divergence affects at most the last printed digit of
informational strings that no claim inspects. -/
def formatFixed2 (q : ℚ) : String :=
  let n : Int := Rat.floor (q * 100 + 1 / 2)
  let whole := Int.fdiv n 100
  let frac := (Int.emod n 100).toNat
  let fracStr := if frac < 10 then "0" ++ toString frac else toString frac
  toString whole ++ "." ++ fracStr

/-- Fixed one-decimal rendering of a rational, for `"%.1f"`. -/
def formatFixed1 (q : ℚ) : String :=
  let n : Int := Rat.floor (q * 10 + 1 / 2)
  toString (Int.fdiv n 10) ++ "." ++ toString ((Int.emod n 10).toNat)

/-- Loop of `utils.format_file_size` over the unit list. -/
def format_file_size_aux : List String → ℚ → String
  | [], size => formatFixed2 size ++ " PB"
  | u :: us, size =>
    if size < 1024 then
      (if u == "B" then toString (Rat.floor size) ++ " B"
       else formatFixed2 size ++ " " ++ u)
    else format_file_size_aux us (size / 1024)

/-- `utils.format_file_size`. -/
def format_file_size (size_bytes : Nat) : String :=
  format_file_size_aux ["B", "KB", "MB", "GB", "TB"] (size_bytes : ℚ)

/-- `utils.get_category`: category of a file from the suffix of its name. -/
def get_category (cfg : Config) (name : String) : String :=
  cfg.get_category (fileSuffix name)

/-- `utils.should_skip_for_duplicates`.  In the model every file path is
already relative to the scanned root, so the `relative_to` call never raises;
`rel_path.parts` includes the file name itself.  The final hidden-name check
is kept from the source even though the component loop subsumes it. -/
def should_skip_for_duplicates (cfg : Config) (f : FSFile) : Bool :=
  if f.content.length == 0 then true
  else if f.path.any (fun part => cfg.is_special_folder part || cfg.is_hidden part) then true
  else cfg.is_hidden f.name

/-! ### MD5 (`hashlib.md5`) and `utils.compute_file_hash`

The MD5 algorithm (RFC 1321) is implemented over `Nat` with explicit
`% 2 ^ 32` masking.  `hashlib`'s incremental hasher is modelled by its
specification: the digest of the concatenation of all fed chunks. -/

def w32 (x : Nat) : Nat := x % 4294967296

def not32 (x : Nat) : Nat := 4294967295 ^^^ x

def rotl32 (x s : Nat) : Nat := w32 ((x <<< s) ||| (x >>> (32 - s)))

/-- The 64 MD5 sine-derived constants. -/
def md5K : List Nat := [
  0xd76aa478, 0xe8c7b756, 0x242070db, 0xc1bdceee,
  0xf57c0faf, 0x4787c62a, 0xa8304613, 0xfd469501,
  0x698098d8, 0x8b44f7af, 0xffff5bb1, 0x895cd7be,
  0x6b901122, 0xfd987193, 0xa679438e, 0x49b40821,
  0xf61e2562, 0xc040b340, 0x265e5a51, 0xe9b6c7aa,
  0xd62f105d, 0x02441453, 0xd8a1e681, 0xe7d3fbc8,
  0x21e1cde6, 0xc33707d6, 0xf4d50d87, 0x455a14ed,
  0xa9e3e905, 0xfcefa3f8, 0x676f02d9, 0x8d2a4c8a,
  0xfffa3942, 0x8771f681, 0x6d9d6122, 0xfde5380c,
  0xa4beea44, 0x4bdecfa9, 0xf6bb4b60, 0xbebfbc70,
  0x289b7ec6, 0xeaa127fa, 0xd4ef3085, 0x04881d05,
  0xd9d4d039, 0xe6db99e5, 0x1fa27cf8, 0xc4ac5665,
  0xf4292244, 0x432aff97, 0xab9423a7, 0xfc93a039,
  0x655b59c3, 0x8f0ccc92, 0xffeff47d, 0x85845dd1,
  0x6fa87e4f, 0xfe2ce6e0, 0xa3014314, 0x4e0811a1,
  0xf7537e82, 0xbd3af235, 0x2ad7d2bb, 0xeb86d391]

/-- The 64 MD5 per-round left-rotation amounts. -/
def md5S : List Nat := [
  7, 12, 17, 22, 7, 12, 17, 22, 7, 12, 17, 22, 7, 12, 17, 22,
  5, 9, 14, 20, 5, 9, 14, 20, 5, 9, 14, 20, 5, 9, 14, 20,
  4, 11, 16, 23, 4, 11, 16, 23, 4, 11, 16, 23, 4, 11, 16, 23,
  6, 10, 15, 21, 6, 10, 15, 21, 6, 10, 15, 21, 6, 10, 15, 21]

structure Md5State where
  a : Nat
  b : Nat
  c : Nat
  d : Nat
  deriving DecidableEq, Repr

def md5F (b c d : Nat) : Nat := (b &&& c) ||| (not32 b &&& d)

def md5G (b c d : Nat) : Nat := (d &&& b) ||| (not32 d &&& c)

def md5H (b c d : Nat) : Nat := b ^^^ c ^^^ d

def md5I (b c d : Nat) : Nat := c ^^^ (b ||| not32 d)

/-- One of the 64 MD5 rounds on a 16-word block `m`. -/
def md5Step (m : List Nat) (st : Md5State) (i : Nat) : Md5State :=
  let fg : Nat × Nat :=
    if i < 16 then (md5F st.b st.c st.d, i)
    else if i < 32 then (md5G st.b st.c st.d, (5 * i + 1) % 16)
    else if i < 48 then (md5H st.b st.c st.d, (3 * i + 5) % 16)
    else (md5I st.b st.c st.d, (7 * i) % 16)
  let f := w32 (fg.1 + st.a + md5K.getD i 0 + m.getD fg.2 0)
  { a := st.d, b := w32 (st.b + rotl32 f (md5S.getD i 0)), c := st.b, d := st.c }

def md5Rounds (m : List Nat) (st : Md5State) : Md5State :=
  (List.range 64).foldl (md5Step m) st

/-- Process one 16-word block and add the result to the running state. -/
def md5Block (st : Md5State) (m : List Nat) : Md5State :=
  let r := md5Rounds m st
  { a := w32 (st.a + r.a), b := w32 (st.b + r.b), c := w32 (st.c + r.c), d := w32 (st.d + r.d) }

/-- `n` little-endian bytes of `x` (truncating). -/
def toLEBytes : Nat → Nat → List Nat
  | 0, _ => []
  | n + 1, x => x % 256 :: toLEBytes n (x / 256)

/-- Groups of four little-endian bytes into 32-bit words. -/
def leWords : List Nat → List Nat
  | b0 :: b1 :: b2 :: b3 :: rest =>
    (b0 + 256 * b1 + 65536 * b2 + 16777216 * b3) :: leWords rest
  | _ => []

/-- MD5 padding: `0x80`, zeros to 56 mod 64, then the 64-bit little-endian
bit length. -/
def md5Pad (msg : List Nat) : List Nat :=
  let l := msg.length
  let zeros := (119 - l % 64) % 64
  msg ++ 128 :: List.replicate zeros 0 ++ toLEBytes 8 (l * 8)

/-- Helper for `chunksOf`, structurally recursive on a fuel bounded by the
stream length (each nonempty read consumes at least one byte when
`bsize > 0`). -/
def chunksOfFuel (bsize : Nat) : Nat → List Nat → List (List Nat)
  | 0, _ => []
  | _, [] => []
  | fuel + 1, b :: rest => (b :: rest).take bsize :: chunksOfFuel bsize fuel ((b :: rest).drop bsize)

/-- Successive `bsize`-byte chunks of a byte stream, mirroring repeated
`f.read(bsize)` calls: an empty read (at end of stream, or `bsize = 0`)
stops. -/
def chunksOf (bsize : Nat) (bs : List Nat) : List (List Nat) :=
  if bsize = 0 then [] else chunksOfFuel bsize bs.length bs

def md5Init : Md5State :=
  { a := 0x67452301, b := 0xefcdab89, c := 0x98badcfe, d := 0x10325476 }

/-- The 16-byte MD5 digest of a byte list. -/
def md5Digest (msg : List Nat) : List Nat :=
  let st := (chunksOf 64 (md5Pad msg)).foldl (fun s ch => md5Block s (leWords ch)) md5Init
  toLEBytes 4 st.a ++ toLEBytes 4 st.b ++ toLEBytes 4 st.c ++ toLEBytes 4 st.d

def hexDigits : List Char := "0123456789abcdef".toList

def hexChar (n : Nat) : Char := hexDigits.getD n '0'

/-- The MD5 digest rendered as lowercase hex (Python `hexdigest()`). -/
def md5hex (msg : List Nat) : String :=
  String.mk ((md5Digest msg).flatMap (fun b => [hexChar (b / 16 % 16), hexChar (b % 16)]))

/-- `utils.compute_file_hash`: the file is read in `buffer_size`-byte chunks,
each fed to an incremental MD5 hasher; the digest is that of the
concatenation of the fed chunks.  With `buffer_size = 0`, Python's
`f.read(0)` returns `b''` and the walrus loop exits immediately. -/
def compute_file_hash (content : List Nat) (buffer_size : Nat) : String :=
  md5hex ((chunksOf buffer_size content).foldl (fun acc c => acc ++ c) [])

/-! ### Filesystem model and the relocation machinery -/

/-- A file exists at exactly this path. -/
def isFileAt (fs : FS) (p : FPath) : Bool := fs.any (fun f => f.path == p)

/-- A directory exists at this path: the root, or a proper prefix of some
file's path (the model has no empty directories). -/
def isDirAt (fs : FS) (p : FPath) : Bool :=
  p == [] || fs.any (fun f => p.isPrefixOf f.path && p.length < f.path.length)

/-- `Path.exists()`: a file or directory is present. -/
def existsAt (fs : FS) (p : FPath) : Bool := isFileAt fs p || isDirAt fs p

/-- `utils.generate_unique_filename`: if nothing exists at `dest` return it;
otherwise insert the timestamp string `ts` between the stem and the suffix
of the final component. -/
def generate_unique_filename (fs : FS) (dest : FPath) (ts : String) : FPath :=
  if existsAt fs dest then
    let name := (dest.getLast?).getD ""
    dest.dropLast ++ [fileStem name ++ "_" ++ ts ++ fileSuffix name]
  else dest

/-- Ghost trace entry.  `moved src requested actual overwritten`: `requested`
is the destination before collision resolution, `actual` the path used, and
`overwritten` the file silently replaced by the rename, when any (the
same-second timestamp-collision case).  `failedMove` records a per-file
error (mkdir or move failure); `deleted` a deletion by cleanup. -/
inductive FsOp where
  | moved (src requested actual : FPath) (overwritten : Option FSFile)
  | failedMove (src requested : FPath)
  | deleted (f : FSFile)
  deriving DecidableEq, Repr

/-- Source path of a trace entry. -/
def FsOp.src : FsOp → FPath
  | .moved s _ _ _ => s
  | .failedMove s _ => s
  | .deleted f => f.path

/-- Contents removed from the filesystem by a trace entry. -/
def FsOp.destroyed : FsOp → List (List Nat)
  | .moved _ _ _ (some g) => [g.content]
  | .moved _ _ _ none => []
  | .failedMove _ _ => []
  | .deleted f => [f.content]

def traceDestroyed (tr : List FsOp) : List (List Nat) := tr.flatMap FsOp.destroyed

/-- The final rename of `shutil.move`: the entry at `src` is retargeted to
`dst`; a pre-existing entry at `dst` is silently replaced (POSIX
`os.rename`). -/
def relocate (fs : FS) (src dst : FPath) : FS :=
  (fs.filter (fun f => !(f.path == dst))).map
    (fun f => if f.path == src then { f with path := dst } else f)

/-- `shutil.move(src, dst)`: if `dst` is an existing directory the source is
moved inside it (raising `shutil.Error` if that target exists); otherwise
the source is renamed to `dst`, replacing any existing file there. -/
def shutil_move (fs : FS) (src dst : FPath) : Except String (FS × FPath × Option FSFile) :=
  if isDirAt fs dst then
    let real := dst ++ [(src.getLast?).getD ""]
    if existsAt fs real then .error "Destination path already exists"
    else .ok (relocate fs src real, real, none)
  else
    .ok (relocate fs src dst, dst, fs.find? (fun f => f.path == dst))

/-- Shared body of the per-file `try` blocks of the orchestrators: ensure the
destination directories (`mkdir` raises when a needed path already exists as
a file), resolve the name collision, then `shutil.move`. -/
def tryMove (fs : FS) (ts : String) (mkdirPaths : List FPath) (src dst : FPath) :
    Except String (FS × FsOp) :=
  if mkdirPaths.any (fun p => isFileAt fs p) then .error "mkdir failed"
  else
    let dst' := generate_unique_filename fs dst ts
    match shutil_move fs src dst' with
    | .error e => .error e
    | .ok r => .ok (r.1, .moved src dst r.2.1 r.2.2)

/-! ### Operation results and orchestrators (`operations.py`) -/

/-- `operations.OperationResult`. -/
structure OperationResult where
  success_count : Nat := 0
  skip_count : Nat := 0
  error_count : Nat := 0
  actions : List String := []
  errors : List String := []
  space_recoverable : Nat := 0
  deriving DecidableEq, Repr

/-- State threaded through an orchestrator run: the filesystem, the
accumulated result, and the ghost trace. -/
structure RunState where
  fs : FS
  res : OperationResult
  trace : List FsOp
  deriving DecidableEq, Repr

/-- Top-level regular files, in enumeration order
(`[f for f in directory.iterdir() if f.is_file()]`). -/
def topFiles (fs : FS) : List FSFile := fs.filter (fun f => f.path.length == 1)

/-- Destination category and action string for one file of `organize_files`. -/
def organizeAction (cfg : Config) (useRecents : Bool) (now : Int) (f : FSFile) :
    String × String :=
  if useRecents && is_recent_file cfg now f.mtime then
    (cfg.recents_folder,
      f.name ++ " (" ++ formatFixed1 (get_file_age_hours now f.mtime) ++ "h old) -> "
        ++ cfg.recents_folder ++ "/")
  else if is_large_file cfg f.content.length then
    (cfg.large_files_folder,
      f.name ++ " (" ++ format_file_size f.content.length ++ ") -> "
        ++ cfg.large_files_folder ++ "/")
  else
    let c := get_category cfg f.name
    (c, f.name ++ " -> " ++ c ++ "/")

/-- Loop body of `organize_files`. -/
def organizeStep (cfg : Config) (dryRun useRecents : Bool) (now : Int) (ts : String)
    (st : RunState) (f : FSFile) : RunState :=
  if cfg.is_hidden f.name then
    { st with res := { st.res with skip_count := st.res.skip_count + 1 } }
  else
    let ca := organizeAction cfg useRecents now f
    let res1 := { st.res with actions := st.res.actions ++ [ca.2] }
    if dryRun then { st with res := res1 }
    else
      match tryMove st.fs ts [[ca.1]] f.path [ca.1, f.name] with
      | .ok p =>
        { fs := p.1, res := { res1 with success_count := res1.success_count + 1 },
          trace := st.trace ++ [p.2] }
      | .error e =>
        let res2 := { res1 with
          error_count := res1.error_count + 1
          errors := res1.errors ++ [f.name ++ ": " ++ e] }
        { st with res := res2, trace := st.trace ++ [.failedMove f.path [ca.1, f.name]] }

/-- `operations.organize_files` on a valid directory. -/
def organize_files (fs : FS) (dryRun useRecents : Bool) (cfg : Config) (now : Int)
    (ts : String) : RunState :=
  (topFiles fs).foldl (organizeStep cfg dryRun useRecents now ts)
    { fs := fs, res := {}, trace := [] }

/-- Action string for one file of `archive_old_files`. -/
def archiveAction (cfg : Config) (now : Int) (f : FSFile) : String :=
  f.name ++ " (" ++ toString (get_file_age_days now f.mtime)
    ++ " days old) -> " ++ cfg.archive_folder ++ "/" ++ get_category cfg f.name ++ "/"

/-- Loop body of `archive_old_files`. -/
def archiveStep (cfg : Config) (dryRun : Bool) (now : Int) (ts : String)
    (st : RunState) (f : FSFile) : RunState :=
  let category := get_category cfg f.name
  let res1 := { st.res with actions := st.res.actions ++ [archiveAction cfg now f] }
  if dryRun then { st with res := res1 }
  else
    match tryMove st.fs ts [[cfg.archive_folder], [cfg.archive_folder, category]] f.path
        [cfg.archive_folder, category, f.name] with
    | .ok p =>
      { fs := p.1, res := { res1 with success_count := res1.success_count + 1 },
        trace := st.trace ++ [p.2] }
    | .error e =>
      let res2 := { res1 with
        error_count := res1.error_count + 1
        errors := res1.errors ++ [f.name ++ ": " ++ e] }
      { st with res := res2
                trace := st.trace ++ [.failedMove f.path [cfg.archive_folder, category, f.name]] }

/-- `operations.archive_old_files` on a valid directory. -/
def archive_old_files (fs : FS) (dryRun : Bool) (cfg : Config) (now : Int)
    (ts : String) : RunState :=
  ((topFiles fs).filter (fun f => !cfg.is_hidden f.name && is_old_file cfg now f.mtime)).foldl
    (archiveStep cfg dryRun now ts) { fs := fs, res := {}, trace := [] }

/-- Action string for one file of `cleanup_temp_files`. -/
def cleanupAction (now : Int) (f : FSFile) : String :=
  f.name ++ " (" ++ toString (get_file_age_days now f.mtime) ++ " days old)"

/-- Loop body of `cleanup_temp_files`; `unlink` of a present file always
succeeds in the model. -/
def cleanupStep (dryRun : Bool) (now : Int) (st : RunState) (f : FSFile) : RunState :=
  let res1 := { st.res with actions := st.res.actions ++ [cleanupAction now f] }
  if dryRun then { st with res := res1 }
  else
    { fs := st.fs.filter (fun g => !(g.path == f.path)),
      res := { res1 with success_count := res1.success_count + 1 },
      trace := st.trace ++ [.deleted f] }

/-- `operations.cleanup_temp_files` on a valid directory. -/
def cleanup_temp_files (fs : FS) (dryRun : Bool) (cfg : Config) (now : Int) : RunState :=
  ((topFiles fs).filter (fun f => is_auto_deletable cfg now f)).foldl
    (cleanupStep dryRun now) { fs := fs, res := {}, trace := [] }

/-- Insertion into the `hash -> files` dict: Python dicts keep first-
encounter key order and append within a key. -/
def groupInsert (groups : List (String × List FSFile)) (h : String) (f : FSFile) :
    List (String × List FSFile) :=
  match groups with
  | [] => [(h, [f])]
  | g :: rest => if g.1 == h then (g.1, g.2 ++ [f]) :: rest else g :: groupInsert rest h f

/-- `operations.find_duplicates` (error-free files): enumerate (recursively
or top-level), filter via `should_skip_for_duplicates`, group by content
hash, keep groups with 2+ members. -/
def find_duplicates (fs : FS) (recursive : Bool) (cfg : Config) :
    List (String × List FSFile) :=
  let files := if recursive then fs else topFiles fs
  let files := files.filter (fun f => !should_skip_for_duplicates cfg f)
  (files.foldl
      (fun gs f => groupInsert gs (compute_file_hash f.content cfg.hash_buffer_size) f)
      []).filter (fun g => 1 < g.2.length)

/-- Stable insertion sort by modification time.  Python's
`list.sort(key=mtime)` is a stable sort; any two stable sorts by the same
key agree, so this is extensionally the source's sort.  Ties keep the
pre-sort (enumeration) order. -/
def insertMtime (x : FSFile) : List FSFile → List FSFile
  | [] => [x]
  | y :: ys => if decide (x.mtime ≤ y.mtime) then x :: y :: ys else y :: insertMtime x ys

def sortByMtime (l : List FSFile) : List FSFile := l.foldr insertMtime []

/-- The directory chain `mkdir(parents=True)` ensures: every nonempty
prefix of the path. -/
def mkdirChain : FPath → List FPath
  | [] => []
  | a :: rest => [a] :: (mkdirChain rest).map (fun q => a :: q)

/-- Loop body of `handle_duplicates` for one non-original group member. -/
def dupAction (f : FSFile) : String :=
  String.intercalate "/" f.path ++ " (" ++ format_file_size f.content.length ++ ")"

def handleDupStep (cfg : Config) (dryRun : Bool) (ts : String) (st : RunState)
    (dup : FSFile) : RunState :=
  let size := dup.content.length
  let res1 := { st.res with
    space_recoverable := st.res.space_recoverable + size
    actions := st.res.actions ++ [dupAction dup] }
  if dryRun then { st with res := res1 }
  else
    let dest := cfg.duplicates_folder :: dup.path
    match tryMove st.fs ts ([cfg.duplicates_folder] :: mkdirChain dest.dropLast)
        dup.path dest with
    | .ok p =>
      { fs := p.1, res := { res1 with success_count := res1.success_count + 1 },
        trace := st.trace ++ [p.2] }
    | .error e =>
      let res2 := { res1 with
        error_count := res1.error_count + 1
        errors := res1.errors ++ [dup.name ++ ": " ++ e] }
      { st with res := res2, trace := st.trace ++ [.failedMove dup.path dest] }

/-- `operations.handle_duplicates` on a valid directory: per group, sort by
modification time (stable) and move every member but the first under the
duplicates folder, preserving the path relative to the root.  Group
members are untouched until their own group is processed, so the snapshot
modification times used here equal the `stat` calls of the source. -/
def handle_duplicates (fs : FS) (dryRun : Bool) (cfg : Config) (ts : String) : RunState :=
  (find_duplicates fs true cfg).foldl
    (fun st g => ((sortByMtime g.2).drop 1).foldl (handleDupStep cfg dryRun ts) st)
    { fs := fs, res := {}, trace := [] }

/-! ### Directory-argument wrappers (invalid-directory behavior) -/

/-- A directory argument as the orchestrators receive it: a valid directory
with its contents, or a path that does not exist or is not a directory. -/
inductive DirArg where
  | valid (fs : FS)
  | invalid
  deriving Repr

/-- `organize_files` raises `ValueError` on an invalid directory. -/
def organize_filesOp : DirArg → Bool → Bool → Config → Int → String →
    Except String (OperationResult × DirArg)
  | .invalid, _, _, _, _, _ => .error "is not a valid directory"
  | .valid fs, dryRun, useRecents, cfg, now, ts =>
    let r := organize_files fs dryRun useRecents cfg now ts
    .ok (r.res, .valid r.fs)

/-- `archive_old_files` raises `ValueError` on an invalid directory. -/
def archive_old_filesOp : DirArg → Bool → Config → Int → String →
    Except String (OperationResult × DirArg)
  | .invalid, _, _, _, _ => .error "is not a valid directory"
  | .valid fs, dryRun, cfg, now, ts =>
    let r := archive_old_files fs dryRun cfg now ts
    .ok (r.res, .valid r.fs)

/-- `cleanup_temp_files` returns the empty result on an invalid directory
(`if not directory.is_dir(): return result`) - it does not raise. -/
def cleanup_temp_filesOp : DirArg → Bool → Config → Int →
    Except String (OperationResult × DirArg)
  | .invalid, _, _, _ => .ok ({}, .invalid)
  | .valid fs, dryRun, cfg, now =>
    let r := cleanup_temp_files fs dryRun cfg now
    .ok (r.res, .valid r.fs)

/-- `handle_duplicates` performs no directory check; `Path.rglob` on a
missing or non-directory path yields nothing (observed CPython behavior for
the walrus-era Pythons this code targets), so `find_duplicates` returns no
groups and the empty result is returned - it does not raise. -/
def handle_duplicatesOp : DirArg → Bool → Config → String →
    Except String (OperationResult × DirArg)
  | .invalid, _, _, _ => .ok ({}, .invalid)
  | .valid fs, dryRun, cfg, ts =>
    let r := handle_duplicates fs dryRun cfg ts
    .ok (r.res, .valid r.fs)

/-! ### Fallible-file model of the duplicate scan (per-file I/O errors) -/

/-- A file with explicit per-file I/O failure modes: `statErr` - `stat()`
raises `OSError` (e.g. the file vanished between enumeration and use);
`readErr` - `open`/`read` raises `PermissionError` or `OSError`. -/
structure EFile where
  path : FPath
  content : List Nat
  mtime : Int
  statErr : Bool
  readErr : Bool
  deriving DecidableEq, Repr

def EFile.name (f : EFile) : String := (f.path.getLast?).getD ""

/-- `should_skip_for_duplicates` with a fallible `stat`: the source calls
`file_path.stat()` outside any try/except, so a stat failure propagates to
the caller. -/
def should_skip_for_duplicatesE (cfg : Config) (f : EFile) : Except String Bool :=
  if f.statErr then .error "stat failed"
  else .ok (
    if f.content.length == 0 then true
    else if f.path.any (fun part => cfg.is_special_folder part || cfg.is_hidden part) then true
    else cfg.is_hidden f.name)

/-- The candidate filter of `find_duplicates`, left to right; the first stat
failure aborts. -/
def filterDupCandidates (cfg : Config) : List EFile → Except String (List EFile)
  | [] => .ok []
  | f :: rest => do
    let skip ← should_skip_for_duplicatesE cfg f
    let rest' ← filterDupCandidates cfg rest
    pure (if skip then rest' else f :: rest')

def groupInsertE (groups : List (String × List EFile)) (h : String) (f : EFile) :
    List (String × List EFile) :=
  match groups with
  | [] => [(h, [f])]
  | g :: rest => if g.1 == h then (g.1, g.2 ++ [f]) :: rest else g :: groupInsertE rest h f

/-- The hashing loop of `find_duplicates`: a per-file read failure is caught,
a warning is emitted through the output callback, and the file is excluded
from grouping. -/
def hashDupGo (cfg : Config) (gs : List (String × List EFile)) (ws : List String) :
    List EFile → List (String × List EFile) × List String
  | [] => (gs, ws)
  | f :: rest =>
    if f.readErr then
      hashDupGo cfg gs (ws ++ ["  [WARNING] Could not read " ++ f.name ++ ": read error"]) rest
    else
      hashDupGo cfg (groupInsertE gs (compute_file_hash f.content cfg.hash_buffer_size) f)
        ws rest

def hashDupPhase (cfg : Config) (files : List EFile) :
    List (String × List EFile) × List String :=
  hashDupGo cfg [] [] files

/-- `operations.find_duplicates` over fallible files: the duplicate groups
and the warnings emitted, or the uncaught stat failure of the filter
phase. -/
def find_duplicatesE (fs : List EFile) (recursive : Bool) (cfg : Config) :
    Except String (List (String × List EFile) × List String) := do
  let files := if recursive then fs else fs.filter (fun f => f.path.length == 1)
  let kept ← filterDupCandidates cfg files
  let gw := hashDupPhase cfg kept
  pure (gw.1.filter (fun g => 1 < g.2.length), gw.2)

/-! ### Generic helpers for the theorems -/

/-- The multiset (as a list up to permutation) of file contents. -/
def contentsOf (fs : FS) : List (List Nat) := fs.map FSFile.content

/-- The list of file paths. -/
def pathsOf (fs : FS) : List FPath := fs.map FSFile.path

/-- The pre-collision-resolution destination recorded in a trace entry. -/
def FsOp.requested : FsOp → FPath
  | .moved _ r _ _ => r
  | .failedMove _ r => r
  | .deleted f => f.path

/-- Whether a trace entry is a deletion. -/
def FsOp.isDelete : FsOp → Bool
  | .deleted _ => true
  | _ => false

/-! ### C8: age-in-days computation -/

/-- The age computation as the claim words it: truncation toward zero of the
duration in whole days (claim-side definition, for comparison with the
source's `get_file_age_days`). -/
def age_days_trunc_toward_zero (now mtime : Int) : Int :=
  (now - mtime).sign * (((now - mtime).natAbs / 86400 : Nat) : Int)

/-- C8 counterexample: with `now` one hour before the modification time the
code returns `-1` (Python's `timedelta.days` floors toward negative
infinity), while truncation toward zero would give `0`.  This falsifies the
claim that the age computation truncates toward zero. -/
theorem C8_counterexample :
    get_file_age_days 0 3600 = -1 ∧ age_days_trunc_toward_zero 0 3600 = 0 := by
  decide

/-- C8 (amended): `get_file_age_days` returns the whole-day count of the
duration `now - mtime` with flooring toward negative infinity (the unique
`d` with `86400 * d ≤ now - mtime < 86400 * (d + 1)`); it is
calendar-agnostic, but for `now` earlier than the modification time it
floors rather than truncating toward zero. -/
theorem C8_age_days_floor (now mtime : Int) :
    86400 * get_file_age_days now mtime ≤ now - mtime ∧
      now - mtime < 86400 * (get_file_age_days now mtime + 1) := by
  have h := Int.fdiv_add_fmod (now - mtime) 86400
  have h2 := @Int.fmod_nonneg' (now - mtime) 86400 (by norm_num)
  have h3 := @Int.fmod_lt_of_pos (now - mtime) 86400 (by norm_num)
  unfold get_file_age_days
  omega

/-! ### C2: invalid-directory behavior -/

/-- C2 counterexample: on a path that is not a valid directory,
`cleanup_temp_files` does not raise - `if not directory.is_dir(): return
result` silently returns the empty result.  This falsifies the claim that
every core operation raises a distinguishable invalid-directory failure. -/
theorem C2_counterexample :
    cleanup_temp_filesOp DirArg.invalid false DEFAULT_CONFIG 0 =
      Except.ok (({} : OperationResult), DirArg.invalid) := rfl

/-- C2 (amended): on a path that does not exist or is not a directory,
`organize_files` and `archive_old_files` raise `ValueError` before any
filesystem mutation, while `cleanup_temp_files` and `handle_duplicates` do
not raise: each silently returns an empty `OperationResult`, also without
mutating anything. -/
theorem C2_invalid_directory (dryRun useRecents : Bool) (cfg : Config) (now : Int)
    (ts : String) :
    organize_filesOp DirArg.invalid dryRun useRecents cfg now ts =
        Except.error "is not a valid directory" ∧
      archive_old_filesOp DirArg.invalid dryRun cfg now ts =
        Except.error "is not a valid directory" ∧
      cleanup_temp_filesOp DirArg.invalid dryRun cfg now =
        Except.ok (({} : OperationResult), DirArg.invalid) ∧
      handle_duplicatesOp DirArg.invalid dryRun cfg ts =
        Except.ok (({} : OperationResult), DirArg.invalid) :=
  ⟨rfl, rfl, rfl, rfl⟩

/-! ### C10: content hashing -/

theorem chunksOfFuel_foldl (bsize : Nat) (hb : 0 < bsize) :
    ∀ (fuel : Nat) (bs acc : List Nat), bs.length ≤ fuel →
      (chunksOfFuel bsize fuel bs).foldl (fun a c => a ++ c) acc = acc ++ bs := by
  intro fuel
  induction fuel with
  | zero =>
    intro bs acc h
    have hbs : bs = [] := List.eq_nil_of_length_eq_zero (Nat.le_zero.mp h)
    subst hbs
    simp [chunksOfFuel]
  | succ n ih =>
    intro bs acc h
    match bs with
    | [] => simp [chunksOfFuel]
    | b :: rest =>
      rw [chunksOfFuel, List.foldl_cons]
      rw [ih ((b :: rest).drop bsize) (acc ++ (b :: rest).take bsize)
        (by simp only [List.length_drop]; simp at h ⊢; omega)]
      rw [List.append_assoc, List.take_append_drop]

theorem chunksOf_foldl (bsize : Nat) (hb : 0 < bsize) (bs acc : List Nat) :
    (chunksOf bsize bs).foldl (fun a c => a ++ c) acc = acc ++ bs := by
  unfold chunksOf
  rw [if_neg (Nat.pos_iff_ne_zero.mp hb)]
  exact chunksOfFuel_foldl bsize hb bs.length bs acc (le_refl _)

theorem toLEBytes_length (n x : Nat) : (toLEBytes n x).length = n := by
  induction n generalizing x with
  | zero => rfl
  | succ n ih => simp [toLEBytes, ih]

theorem md5Digest_length (msg : List Nat) : (md5Digest msg).length = 16 := by
  unfold md5Digest
  simp [toLEBytes_length]

theorem hexPairs_length (l : List Nat) :
    (l.flatMap (fun b => [hexChar (b / 16 % 16), hexChar (b % 16)])).length = 2 * l.length := by
  induction l with
  | nil => rfl
  | cons b t ih => simp [List.flatMap_cons, ih]; omega

theorem md5hex_length (msg : List Nat) : (md5hex msg).length = 32 := by
  have h : (md5hex msg).length =
      ((md5Digest msg).flatMap (fun b => [hexChar (b / 16 % 16), hexChar (b % 16)])).length := rfl
  rw [h, hexPairs_length, md5Digest_length]

theorem hexChar_mem (n : Nat) : hexChar n ∈ hexDigits := by
  rcases Nat.lt_or_ge n 16 with h | h
  · unfold hexChar
    interval_cases n <;> decide
  · unfold hexChar
    rw [List.getD_eq_default]
    · decide
    · have : hexDigits.length = 16 := by decide
      omega

theorem md5hex_chars (msg : List Nat) : ∀ ch ∈ (md5hex msg).toList, ch ∈ hexDigits := by
  unfold md5hex
  intro ch hch
  have : ch ∈ (md5Digest msg).flatMap (fun b => [hexChar (b / 16 % 16), hexChar (b % 16)]) := by
    simpa [String.toList] using hch
  rcases List.mem_flatMap.mp this with ⟨b, _, hmem⟩
  simp only [List.mem_cons, List.mem_singleton, List.not_mem_nil, or_false] at hmem
  rcases hmem with rfl | rfl
  · exact hexChar_mem _
  · exact hexChar_mem _

theorem compute_file_hash_eq_md5hex (content : List Nat) (bsize : Nat) (hb : 0 < bsize) :
    compute_file_hash content bsize = md5hex content := by
  unfold compute_file_hash
  rw [chunksOf_foldl bsize hb content []]
  rfl

/-- C10: for every positive buffer size, `compute_file_hash` returns the MD5
digest of the whole content as a 32-character lowercase-hex string,
independently of the chunking; two hashes agree exactly when the MD5 digests
of the contents agree. -/
theorem C10_compute_file_hash (content c2 : List Nat) (bsize b2 : Nat)
    (h1 : 0 < bsize) (h2 : 0 < b2) :
    compute_file_hash content bsize = md5hex content ∧
      (compute_file_hash content bsize).length = 32 ∧
      (∀ ch ∈ (compute_file_hash content bsize).toList, ch ∈ hexDigits) ∧
      (compute_file_hash content bsize = compute_file_hash c2 b2 ↔
        md5hex content = md5hex c2) := by
  rw [compute_file_hash_eq_md5hex content bsize h1, compute_file_hash_eq_md5hex c2 b2 h2]
  exact ⟨rfl, md5hex_length content, md5hex_chars content, Iff.rfl⟩

/-- Witness for C10 at concrete inputs. -/
theorem C10_witness :
    0 < 1 ∧ 0 < 2 ∧
      (compute_file_hash [104, 105] 1 = md5hex [104, 105] ∧
        (compute_file_hash [104, 105] 1).length = 32 ∧
        (∀ ch ∈ (compute_file_hash [104, 105] 1).toList, ch ∈ hexDigits) ∧
        (compute_file_hash [104, 105] 1 = compute_file_hash [1, 2, 3] 2 ↔
          md5hex [104, 105] = md5hex [1, 2, 3])) :=
  ⟨Nat.one_pos, Nat.zero_lt_two,
    C10_compute_file_hash [104, 105] [1, 2, 3] 1 2 Nat.one_pos Nat.zero_lt_two⟩

/-! ### Small filesystem lemmas -/

theorem isFileAt_of_mem {fs : FS} {f : FSFile} (h : f ∈ fs) : isFileAt fs f.path = true :=
  List.any_eq_true.mpr ⟨f, h, by simp⟩

theorem existsAt_of_isFileAt {fs : FS} {p : FPath} (h : isFileAt fs p = true) :
    existsAt fs p = true := by
  unfold existsAt
  rw [h, Bool.true_or]

theorem find?_eq_none_of_not_isFileAt {fs : FS} {p : FPath} (h : isFileAt fs p = false) :
    fs.find? (fun f => f.path == p) = none := by
  rw [List.find?_eq_none]
  intro f hf hbeq
  have hany : fs.any (fun f => f.path == p) = true := List.any_eq_true.mpr ⟨f, hf, hbeq⟩
  unfold isFileAt at h
  rw [h] at hany
  cases hany

/-! ### C9: only dot-files are exempt from organize -/

theorem organizeStep_hidden (cfg : Config) (dryRun useRecents : Bool) (now : Int)
    (ts : String) (st : RunState) (f : FSFile) (hh : cfg.is_hidden f.name = true) :
    organizeStep cfg dryRun useRecents now ts st f =
      { st with res := { st.res with skip_count := st.res.skip_count + 1 } } := by
  unfold organizeStep
  simp [hh]

theorem organizeStep_not_hidden (cfg : Config) (dryRun useRecents : Bool) (now : Int)
    (ts : String) (st : RunState) (f : FSFile) (hh : cfg.is_hidden f.name = false) :
    (organizeStep cfg dryRun useRecents now ts st f).res.actions =
        st.res.actions ++ [(organizeAction cfg useRecents now f).2] ∧
      (organizeStep cfg dryRun useRecents now ts st f).res.skip_count =
        st.res.skip_count := by
  unfold organizeStep
  rw [hh, if_neg (by simp)]
  dsimp only
  split
  · exact ⟨rfl, rfl⟩
  · split
    · exact ⟨rfl, rfl⟩
    · exact ⟨rfl, rfl⟩

theorem organize_foldl_res (cfg : Config) (dryRun useRecents : Bool) (now : Int)
    (ts : String) :
    ∀ (files : List FSFile) (st : RunState),
      ((files.foldl (organizeStep cfg dryRun useRecents now ts) st).res.actions =
        st.res.actions ++ (files.filter (fun f => !cfg.is_hidden f.name)).map
          (fun f => (organizeAction cfg useRecents now f).2)) ∧
      ((files.foldl (organizeStep cfg dryRun useRecents now ts) st).res.skip_count =
        st.res.skip_count + (files.filter (fun f => cfg.is_hidden f.name)).length) := by
  intro files
  induction files with
  | nil => intro st; simp
  | cons f rest ih =>
    intro st
    rw [List.foldl_cons]
    by_cases hh : cfg.is_hidden f.name = true
    · rw [organizeStep_hidden cfg dryRun useRecents now ts st f hh]
      rcases ih _ with ⟨ha, hs⟩
      refine ⟨?_, ?_⟩
      · rw [ha]
        simp [List.filter_cons, hh]
      · rw [hs]
        simp [List.filter_cons, hh]
        omega
    · have hh' : cfg.is_hidden f.name = false := Bool.eq_false_iff.mpr hh
      rcases organizeStep_not_hidden cfg dryRun useRecents now ts st f hh' with ⟨ha1, hs1⟩
      rcases ih (organizeStep cfg dryRun useRecents now ts st f) with ⟨ha, hs⟩
      refine ⟨?_, ?_⟩
      · rw [ha, ha1]
        simp [List.filter_cons, hh']
      · rw [hs, hs1]
        simp [List.filter_cons, hh']

/-- C9: `organize_files` exempts exactly the top-level files whose name
starts with a dot: the recorded actions are one per non-dot candidate (in
order) and the skip count is the number of dot candidates - a file named
with the special-folder prefix `"_"` is classified and moved like any other
file.  The special-folder prefix exempts path components only in the
duplicate scan: any file with a special-prefixed component is skipped
there. -/
theorem C9_organize_dotfiles_only (fs : FS) (dryRun useRecents : Bool) (cfg : Config)
    (now : Int) (ts : String) (g : FSFile) :
    ((organize_files fs dryRun useRecents cfg now ts).res.actions =
      ((topFiles fs).filter (fun f => !cfg.is_hidden f.name)).map
        (fun f => (organizeAction cfg useRecents now f).2)) ∧
    ((organize_files fs dryRun useRecents cfg now ts).res.skip_count =
      ((topFiles fs).filter (fun f => cfg.is_hidden f.name)).length) ∧
    (g.path.any (fun part => DEFAULT_CONFIG.is_special_folder part) = true →
      should_skip_for_duplicates DEFAULT_CONFIG g = true) := by
  refine ⟨(organize_foldl_res cfg dryRun useRecents now ts (topFiles fs) _).1, ?_, ?_⟩
  · have h2 := (organize_foldl_res cfg dryRun useRecents now ts (topFiles fs)
      { fs := fs, res := {}, trace := [] }).2
    unfold organize_files
    rw [h2]
    exact Nat.zero_add _
  intro hany
  by_cases h0 : (g.content.length == 0) = true
  · simp [should_skip_for_duplicates, h0]
  · have hsp : g.path.any
        (fun part => DEFAULT_CONFIG.is_special_folder part || DEFAULT_CONFIG.is_hidden part) =
        true := by
      rcases List.any_eq_true.mp hany with ⟨part, hp, hs⟩
      exact List.any_eq_true.mpr ⟨part, hp, by simp [hs]⟩
    simp [should_skip_for_duplicates, h0, hsp]

/-- Witness for C9: a top-level file `_notes.txt` is organized into
`Documents/` like any other `.txt` file, and a file under a
special-prefixed folder is skipped by the duplicate scan. -/
theorem C9_witness :
    (organize_files [⟨["_notes.txt"], [1], 0⟩] false false DEFAULT_CONFIG 0 "TS").res.actions =
        ["_notes.txt -> Documents/"] ∧
      should_skip_for_duplicates DEFAULT_CONFIG ⟨["_Summaries", "x.txt"], [1], 0⟩ = true := by
  have h := C9_organize_dotfiles_only [⟨["_notes.txt"], [1], 0⟩] false false DEFAULT_CONFIG 0 "TS"
    ⟨["_Summaries", "x.txt"], [1], 0⟩
  refine ⟨?_, h.2.2 (by decide)⟩
  rw [h.1]
  decide

/-! ### C6: collision renaming -/

/-- C6 counterexample: `generate_unique_filename` checks only once.  When
`Documents/` already contains both `report.pdf` and the timestamped
alternative `report_20240131_235959.pdf`, and the move happens at
2024-01-31 23:59:59, organizing the top-level `report.pdf` overwrites the
existing timestamped file: its content `[3]` is absent afterward.  This
falsifies "no existing file is ever overwritten". -/
theorem C6_counterexample :
    (organize_files
        [⟨["report.pdf"], [1], 0⟩, ⟨["Documents", "report.pdf"], [2], 0⟩,
         ⟨["Documents", "report_20240131_235959.pdf"], [3], 0⟩] false false DEFAULT_CONFIG 0
        "20240131_235959").fs =
      [⟨["Documents", "report_20240131_235959.pdf"], [1], 0⟩,
       ⟨["Documents", "report.pdf"], [2], 0⟩] := by
  decide

/-- C6 (amended): when a file is moved onto an occupied destination name,
the destination is rewritten by inserting the second-resolution timestamp
between the stem and its extension; provided nothing already exists at that
timestamped alternative (no same-second collision), the move succeeds there,
both files then exist with contents preserved exactly, and no existing file
is overwritten.  (If the timestamped name is itself occupied the move
overwrites it - see the counterexample.) -/
theorem C6_collision_rename (fs : FS) (ts : String) (mkdirPaths : List FPath)
    (destDir : FPath) (name : String) (src : FPath) (c : List Nat) (m : Int)
    (hsrc : FSFile.mk src c m ∈ fs)
    (hdest : isFileAt fs (destDir ++ [name]) = true)
    (hts : existsAt fs (destDir ++ [fileStem name ++ "_" ++ ts ++ fileSuffix name]) = false)
    (hmk : mkdirPaths.any (fun p => isFileAt fs p) = false) :
    tryMove fs ts mkdirPaths src (destDir ++ [name]) =
        Except.ok (relocate fs src (destDir ++ [fileStem name ++ "_" ++ ts ++ fileSuffix name]),
          FsOp.moved src (destDir ++ [name])
            (destDir ++ [fileStem name ++ "_" ++ ts ++ fileSuffix name]) none) ∧
      FSFile.mk (destDir ++ [fileStem name ++ "_" ++ ts ++ fileSuffix name]) c m ∈
        relocate fs src (destDir ++ [fileStem name ++ "_" ++ ts ++ fileSuffix name]) ∧
      ∀ g ∈ fs, g.path ≠ src →
        g ∈ relocate fs src (destDir ++ [fileStem name ++ "_" ++ ts ++ fileSuffix name]) := by
  set tdest := destDir ++ [fileStem name ++ "_" ++ ts ++ fileSuffix name] with htd
  have hor : (isFileAt fs tdest || isDirAt fs tdest) = false := by
    unfold existsAt at hts
    exact hts
  have hfts : isFileAt fs tdest = false := (Bool.or_eq_false_iff.mp hor).1
  have hdts : isDirAt fs tdest = false := (Bool.or_eq_false_iff.mp hor).2
  have hgen : generate_unique_filename fs (destDir ++ [name]) ts = tdest := by
    unfold generate_unique_filename
    rw [if_pos (existsAt_of_isFileAt hdest)]
    rw [List.getLast?_concat, List.dropLast_concat]
    rfl
  have hmain : tryMove fs ts mkdirPaths src (destDir ++ [name]) =
      Except.ok (relocate fs src tdest, FsOp.moved src (destDir ++ [name]) tdest none) := by
    unfold tryMove
    rw [hmk, if_neg (by simp), hgen]
    unfold shutil_move
    dsimp only
    rw [hdts, if_neg (by simp), find?_eq_none_of_not_isFileAt hfts]
  have hsrcne : src ≠ tdest := by
    intro he
    have hsf := isFileAt_of_mem hsrc
    rw [show (FSFile.mk src c m).path = src from rfl, he, hfts] at hsf
    cases hsf
  refine ⟨hmain, ?_, ?_⟩
  · unfold relocate
    apply List.mem_map.mpr
    refine ⟨⟨src, c, m⟩, List.mem_filter.mpr ⟨hsrc, ?_⟩, ?_⟩
    · simp [hsrcne]
    · simp
  · intro g hg hgne
    have hgp : g.path ≠ tdest := by
      intro he
      have h2 := isFileAt_of_mem hg
      rw [he, hfts] at h2
      cases h2
    unfold relocate
    apply List.mem_map.mpr
    refine ⟨g, List.mem_filter.mpr ⟨hg, by simp [hgp]⟩, by simp [hgne]⟩

/-- Witness for C6: moving `report.pdf` into `Documents/` which already
contains a `report.pdf`. -/
theorem C6_witness :
    FSFile.mk ["report.pdf"] [1] 0 ∈
        ([⟨["report.pdf"], [1], 0⟩, ⟨["Documents", "report.pdf"], [2], 0⟩] : FS) ∧
      isFileAt [⟨["report.pdf"], [1], 0⟩, ⟨["Documents", "report.pdf"], [2], 0⟩]
        (["Documents"] ++ ["report.pdf"]) = true ∧
      existsAt [⟨["report.pdf"], [1], 0⟩, ⟨["Documents", "report.pdf"], [2], 0⟩]
        (["Documents"] ++
          [fileStem "report.pdf" ++ "_" ++ "20240131_235959" ++ fileSuffix "report.pdf"]) =
        false ∧
      tryMove [⟨["report.pdf"], [1], 0⟩, ⟨["Documents", "report.pdf"], [2], 0⟩]
          "20240131_235959" [["Documents"]] ["report.pdf"] (["Documents"] ++ ["report.pdf"]) =
        Except.ok
          (relocate [⟨["report.pdf"], [1], 0⟩, ⟨["Documents", "report.pdf"], [2], 0⟩]
              ["report.pdf"]
              (["Documents"] ++
                [fileStem "report.pdf" ++ "_" ++ "20240131_235959" ++ fileSuffix "report.pdf"]),
            FsOp.moved ["report.pdf"] (["Documents"] ++ ["report.pdf"])
              (["Documents"] ++
                [fileStem "report.pdf" ++ "_" ++ "20240131_235959" ++ fileSuffix "report.pdf"])
              none) := by
  refine ⟨by decide, by decide, by decide, ?_⟩
  exact (C6_collision_rename
    [⟨["report.pdf"], [1], 0⟩, ⟨["Documents", "report.pdf"], [2], 0⟩] "20240131_235959"
    [["Documents"]] ["Documents"] "report.pdf" ["report.pdf"] [1] 0 (by decide) (by decide)
    (by decide) (by decide)).1

/-! ### C5: per-file I/O errors during the duplicate scan -/

/-- The skip predicate on a fallible file whose `stat` call succeeds
(the value inside `should_skip_for_duplicatesE`'s `ok`). -/
def shouldSkipE (cfg : Config) (f : EFile) : Bool :=
  if f.content.length == 0 then true
  else if f.path.any (fun part => cfg.is_special_folder part || cfg.is_hidden part) then true
  else cfg.is_hidden f.name

/-- C5 counterexample: a single candidate whose `stat` fails (file vanished
between enumeration and filtering) aborts the whole scan - the `stat()`
inside `should_skip_for_duplicates` is outside the try/except of
`find_duplicates`.  This falsifies "for no input does a per-file I/O error
abort the scan". -/
theorem C5_counterexample :
    find_duplicatesE [⟨["a.txt"], [1], 0, true, false⟩] true DEFAULT_CONFIG =
      Except.error "stat failed" := rfl

theorem filterDupCandidates_ok (cfg : Config) :
    ∀ (l : List EFile), (∀ f ∈ l, f.statErr = false) →
      filterDupCandidates cfg l = .ok (l.filter (fun f => !shouldSkipE cfg f)) := by
  intro l
  induction l with
  | nil => intro _; rfl
  | cons f rest ih =>
    intro h
    have hf : f.statErr = false := h f (List.mem_cons_self f rest)
    have hrest := ih (fun g hg => h g (List.mem_cons_of_mem f hg))
    have h1 : should_skip_for_duplicatesE cfg f = .ok (shouldSkipE cfg f) := by
      unfold should_skip_for_duplicatesE shouldSkipE
      rw [hf, if_neg (by simp)]
    unfold filterDupCandidates
    rw [h1, hrest]
    show Except.ok (if shouldSkipE cfg f then _ else _) = _
    by_cases hs : shouldSkipE cfg f = true
    · simp [hs, List.filter_cons]
    · have hs' : shouldSkipE cfg f = false := Bool.eq_false_iff.mpr hs
      simp [hs', List.filter_cons]

theorem groupInsertE_mem {h : String} {f : EFile} :
    ∀ (gs : List (String × List EFile)), ∀ g ∈ groupInsertE gs h f, ∀ x ∈ g.2,
      (∃ g' ∈ gs, x ∈ g'.2) ∨ x = f := by
  intro gs
  induction gs with
  | nil =>
    intro g hg x hx
    simp only [groupInsertE, List.mem_singleton] at hg
    subst hg
    simp only [List.mem_singleton] at hx
    exact Or.inr hx
  | cons g0 rest ih =>
    intro g hg x hx
    unfold groupInsertE at hg
    by_cases hk : (g0.1 == h) = true
    · rw [if_pos hk] at hg
      rcases List.mem_cons.mp hg with rfl | hgr
      · rcases List.mem_append.mp hx with hx1 | hx2
        · exact Or.inl ⟨g0, List.mem_cons_self _ _, hx1⟩
        · simp only [List.mem_singleton] at hx2
          exact Or.inr hx2
      · exact Or.inl ⟨g, List.mem_cons_of_mem _ hgr, hx⟩
    · rw [if_neg hk] at hg
      rcases List.mem_cons.mp hg with rfl | hgr
      · exact Or.inl ⟨g, List.mem_cons_self _ _, hx⟩
      · rcases ih g hgr x hx with ⟨g', hg', hx'⟩ | hxe
        · exact Or.inl ⟨g', List.mem_cons_of_mem _ hg', hx'⟩
        · exact Or.inr hxe

theorem hashDupGo_clean (cfg : Config) :
    ∀ (l : List EFile) (gs : List (String × List EFile)) (ws : List String),
      (∀ g ∈ gs, ∀ x ∈ g.2, x.readErr = false) →
      ∀ g ∈ (hashDupGo cfg gs ws l).1, ∀ x ∈ g.2, x.readErr = false := by
  intro l
  induction l with
  | nil => intro gs ws h; exact h
  | cons f rest ih =>
    intro gs ws h
    unfold hashDupGo
    by_cases hr : f.readErr = true
    · rw [if_pos hr]
      exact ih _ _ h
    · have hr' : f.readErr = false := Bool.eq_false_iff.mpr hr
      rw [if_neg (by rw [hr']; simp)]
      apply ih
      intro g hg x hx
      rcases groupInsertE_mem _ g hg x hx with ⟨g', hg', hx'⟩ | rfl
      · exact h g' hg' x hx'
      · exact hr'

theorem hashDupGo_warnings (cfg : Config) :
    ∀ (l : List EFile) (gs : List (String × List EFile)) (ws : List String),
      (hashDupGo cfg gs ws l).2.length = ws.length + (l.filter (fun f => f.readErr)).length := by
  intro l
  induction l with
  | nil => intro gs ws; simp [hashDupGo]
  | cons f rest ih =>
    intro gs ws
    unfold hashDupGo
    by_cases hr : f.readErr = true
    · rw [if_pos hr, ih]
      simp [List.filter_cons, hr]
      omega
    · have hr' : f.readErr = false := Bool.eq_false_iff.mpr hr
      rw [if_neg (by rw [hr']; simp), ih]
      simp [List.filter_cons, hr']

/-- C5 (amended): per-file read errors during digest computation are caught:
if every candidate's `stat` succeeds, the scan always completes, files whose
read failed are excluded from every reported group, and exactly one warning
is recorded per unreadable kept candidate.  However, a `stat` failure in the
skip-filter phase (e.g. a file vanished between enumeration and filtering)
is not caught and aborts the scan - see the counterexample. -/
theorem C5_read_errors (fs : List EFile) (recursive : Bool) (cfg : Config)
    (hstat : ∀ f ∈ fs, f.statErr = false) :
    (find_duplicatesE fs recursive cfg).isOk = true ∧
      ∀ groups warnings, find_duplicatesE fs recursive cfg = .ok (groups, warnings) →
        (∀ g ∈ groups, ∀ f ∈ g.2, f.readErr = false) ∧
          warnings.length =
            (((if recursive then fs else fs.filter (fun f => f.path.length == 1)).filter
                (fun f => !shouldSkipE cfg f)).filter (fun f => f.readErr)).length := by
  have hstat' : ∀ f ∈ (if recursive then fs else fs.filter (fun f => f.path.length == 1)),
      f.statErr = false := by
    cases recursive with
    | true => intro f hf; exact hstat f (by simpa using hf)
    | false =>
      intro f hf
      simp only [Bool.false_eq_true, if_false] at hf
      exact hstat f (List.mem_of_mem_filter hf)
  have heq : find_duplicatesE fs recursive cfg =
      .ok (((hashDupPhase cfg
          ((if recursive then fs else fs.filter (fun f => f.path.length == 1)).filter
            (fun f => !shouldSkipE cfg f))).1.filter (fun g => 1 < g.2.length)),
        (hashDupPhase cfg
          ((if recursive then fs else fs.filter (fun f => f.path.length == 1)).filter
            (fun f => !shouldSkipE cfg f))).2) := by
    unfold find_duplicatesE
    dsimp only
    rw [filterDupCandidates_ok cfg _ hstat']
    rfl
  constructor
  · rw [heq]; rfl
  · intro groups warnings hok
    rw [heq] at hok
    have h2 := Except.ok.inj hok
    injection h2 with hg hw
    subst hg
    subst hw
    refine ⟨?_, ?_⟩
    · intro g hgm f hf
      exact hashDupGo_clean cfg _ [] []
        (by intro g hgx; cases hgx) g (List.mem_of_mem_filter hgm) f hf
    · unfold hashDupPhase
      rw [hashDupGo_warnings cfg _ [] []]
      exact Nat.zero_add _

set_option maxRecDepth 100000 in
/-- Witness for C5: one unreadable candidate among readable ones - the scan
completes and exactly one warning is recorded. -/
theorem C5_witness :
    (find_duplicatesE
        [⟨["a.txt"], [1], 0, false, true⟩, ⟨["b.txt"], [2], 0, false, false⟩,
         ⟨["c.txt"], [3], 0, false, false⟩] true DEFAULT_CONFIG).isOk = true ∧
      (["  [WARNING] Could not read a.txt: read error"] : List String).length =
        ((([(⟨["a.txt"], [1], 0, false, true⟩ : EFile), ⟨["b.txt"], [2], 0, false, false⟩,
            ⟨["c.txt"], [3], 0, false, false⟩].filter
              (fun f => !shouldSkipE DEFAULT_CONFIG f)).filter
            (fun f => f.readErr)).length) := by
  have h := C5_read_errors
    [⟨["a.txt"], [1], 0, false, true⟩, ⟨["b.txt"], [2], 0, false, false⟩,
     ⟨["c.txt"], [3], 0, false, false⟩] true DEFAULT_CONFIG
    (by intro f hf; fin_cases hf <;> rfl)
  exact ⟨h.1,
    (h.2 [] ["  [WARNING] Could not read a.txt: read error"] (by rfl)).2⟩

/-! ### C3: dry-run equivalence -/

theorem organize_dry_fs (cfg : Config) (useRecents : Bool) (now : Int) (ts : String) :
    ∀ (files : List FSFile) (st : RunState),
      (files.foldl (organizeStep cfg true useRecents now ts) st).fs = st.fs := by
  intro files
  induction files with
  | nil => intro st; rfl
  | cons f rest ih =>
    intro st
    rw [List.foldl_cons, ih]
    unfold organizeStep
    split
    · rfl
    · rfl

theorem archive_dry_fs (cfg : Config) (now : Int) (ts : String) :
    ∀ (files : List FSFile) (st : RunState),
      (files.foldl (archiveStep cfg true now ts) st).fs = st.fs := by
  intro files
  induction files with
  | nil => intro st; rfl
  | cons f rest ih =>
    intro st
    rw [List.foldl_cons, ih]
    rfl

theorem cleanup_dry_fs (now : Int) :
    ∀ (files : List FSFile) (st : RunState),
      (files.foldl (cleanupStep true now) st).fs = st.fs := by
  intro files
  induction files with
  | nil => intro st; rfl
  | cons f rest ih =>
    intro st
    rw [List.foldl_cons, ih]
    rfl

theorem handleDup_dry_fs (cfg : Config) (ts : String) :
    ∀ (dups : List FSFile) (st : RunState),
      (dups.foldl (handleDupStep cfg true ts) st).fs = st.fs := by
  intro dups
  induction dups with
  | nil => intro st; rfl
  | cons f rest ih =>
    intro st
    rw [List.foldl_cons, ih]
    rfl

theorem handle_dry_fs (cfg : Config) (ts : String) :
    ∀ (groups : List (String × List FSFile)) (st : RunState),
      (groups.foldl
        (fun st g => ((sortByMtime g.2).drop 1).foldl (handleDupStep cfg true ts) st)
        st).fs = st.fs := by
  intro groups
  induction groups with
  | nil => intro st; rfl
  | cons g rest ih =>
    intro st
    rw [List.foldl_cons, ih, handleDup_dry_fs]

theorem archiveStep_actions (cfg : Config) (dryRun : Bool) (now : Int) (ts : String)
    (st : RunState) (f : FSFile) :
    (archiveStep cfg dryRun now ts st f).res.actions =
      st.res.actions ++ [archiveAction cfg now f] := by
  unfold archiveStep
  split
  · rfl
  · dsimp only
    split <;> rfl

theorem archive_foldl_actions (cfg : Config) (dryRun : Bool) (now : Int) (ts : String) :
    ∀ (files : List FSFile) (st : RunState),
      (files.foldl (archiveStep cfg dryRun now ts) st).res.actions =
        st.res.actions ++ files.map (archiveAction cfg now) := by
  intro files
  induction files with
  | nil => intro st; simp
  | cons f rest ih =>
    intro st
    rw [List.foldl_cons, ih, archiveStep_actions]
    simp

theorem cleanupStep_actions (dryRun : Bool) (now : Int) (st : RunState) (f : FSFile) :
    (cleanupStep dryRun now st f).res.actions = st.res.actions ++ [cleanupAction now f] := by
  unfold cleanupStep
  split <;> rfl

theorem cleanup_foldl_actions (dryRun : Bool) (now : Int) :
    ∀ (files : List FSFile) (st : RunState),
      (files.foldl (cleanupStep dryRun now) st).res.actions =
        st.res.actions ++ files.map (cleanupAction now) := by
  intro files
  induction files with
  | nil => intro st; simp
  | cons f rest ih =>
    intro st
    rw [List.foldl_cons, ih, cleanupStep_actions]
    simp

theorem handleDupStep_actions (cfg : Config) (dryRun : Bool) (ts : String)
    (st : RunState) (f : FSFile) :
    (handleDupStep cfg dryRun ts st f).res.actions = st.res.actions ++ [dupAction f] := by
  unfold handleDupStep
  split
  · rfl
  · dsimp only
    split <;> rfl

theorem handleDup_foldl_actions (cfg : Config) (dryRun : Bool) (ts : String) :
    ∀ (dups : List FSFile) (st : RunState),
      (dups.foldl (handleDupStep cfg dryRun ts) st).res.actions =
        st.res.actions ++ dups.map dupAction := by
  intro dups
  induction dups with
  | nil => intro st; simp
  | cons f rest ih =>
    intro st
    rw [List.foldl_cons, ih, handleDupStep_actions]
    simp

theorem handle_foldl_actions (cfg : Config) (dryRun : Bool) (ts : String) :
    ∀ (groups : List (String × List FSFile)) (st : RunState),
      (groups.foldl
        (fun st g => ((sortByMtime g.2).drop 1).foldl (handleDupStep cfg dryRun ts) st)
        st).res.actions =
        st.res.actions ++
          groups.flatMap (fun g => ((sortByMtime g.2).drop 1).map dupAction) := by
  intro groups
  induction groups with
  | nil => intro st; simp
  | cons g rest ih =>
    intro st
    rw [List.foldl_cons, ih, handleDup_foldl_actions]
    simp

theorem organize_trace_le (cfg : Config) (dryRun useRecents : Bool) (now : Int) (ts : String) :
    ∀ (files : List FSFile) (st : RunState),
      st.trace.length ≤ st.res.actions.length →
      (files.foldl (organizeStep cfg dryRun useRecents now ts) st).trace.length ≤
        (files.foldl (organizeStep cfg dryRun useRecents now ts) st).res.actions.length := by
  intro files
  induction files with
  | nil => intro st h; exact h
  | cons f rest ih =>
    intro st h
    rw [List.foldl_cons]
    apply ih
    unfold organizeStep
    split
    · exact h
    · dsimp only
      split
      · simpa using Nat.le_succ_of_le h
      · split <;> (simp [List.length_append]; omega)

theorem archive_trace_le (cfg : Config) (dryRun : Bool) (now : Int) (ts : String) :
    ∀ (files : List FSFile) (st : RunState),
      st.trace.length ≤ st.res.actions.length →
      (files.foldl (archiveStep cfg dryRun now ts) st).trace.length ≤
        (files.foldl (archiveStep cfg dryRun now ts) st).res.actions.length := by
  intro files
  induction files with
  | nil => intro st h; exact h
  | cons f rest ih =>
    intro st h
    rw [List.foldl_cons]
    apply ih
    unfold archiveStep
    split
    · simpa using Nat.le_succ_of_le h
    · dsimp only
      split <;> (simp [List.length_append]; omega)

theorem cleanup_trace_le (dryRun : Bool) (now : Int) :
    ∀ (files : List FSFile) (st : RunState),
      st.trace.length ≤ st.res.actions.length →
      (files.foldl (cleanupStep dryRun now) st).trace.length ≤
        (files.foldl (cleanupStep dryRun now) st).res.actions.length := by
  intro files
  induction files with
  | nil => intro st h; exact h
  | cons f rest ih =>
    intro st h
    rw [List.foldl_cons]
    apply ih
    unfold cleanupStep
    split
    · simpa using Nat.le_succ_of_le h
    · simp [List.length_append]
      omega

theorem handleDup_trace_le (cfg : Config) (dryRun : Bool) (ts : String) :
    ∀ (dups : List FSFile) (st : RunState),
      st.trace.length ≤ st.res.actions.length →
      (dups.foldl (handleDupStep cfg dryRun ts) st).trace.length ≤
        (dups.foldl (handleDupStep cfg dryRun ts) st).res.actions.length := by
  intro dups
  induction dups with
  | nil => intro st h; exact h
  | cons f rest ih =>
    intro st h
    rw [List.foldl_cons]
    apply ih
    unfold handleDupStep
    split
    · simpa using Nat.le_succ_of_le h
    · dsimp only
      split <;> (simp [List.length_append]; omega)

theorem handle_trace_le (cfg : Config) (dryRun : Bool) (ts : String) :
    ∀ (groups : List (String × List FSFile)) (st : RunState),
      st.trace.length ≤ st.res.actions.length →
      (groups.foldl
        (fun st g => ((sortByMtime g.2).drop 1).foldl (handleDupStep cfg dryRun ts) st)
        st).trace.length ≤
        (groups.foldl
          (fun st g => ((sortByMtime g.2).drop 1).foldl (handleDupStep cfg dryRun ts) st)
          st).res.actions.length := by
  intro groups
  induction groups with
  | nil => intro st h; exact h
  | cons g rest ih =>
    intro st h
    rw [List.foldl_cons]
    exact ih _ (handleDup_trace_le cfg dryRun ts _ _ h)

/-- C3: for each orchestrator, a dry run leaves the filesystem byte-identical,
records exactly the actions a real run on the same state would record, and
the action list is nonempty whenever the real run would perform (or attempt)
filesystem work. -/
theorem C3_dry_run (fs : FS) (useRecents : Bool) (cfg : Config) (now : Int) (ts : String) :
    ((organize_files fs true useRecents cfg now ts).fs = fs ∧
      (organize_files fs true useRecents cfg now ts).res.actions =
        (organize_files fs false useRecents cfg now ts).res.actions ∧
      ((organize_files fs false useRecents cfg now ts).trace ≠ [] →
        (organize_files fs true useRecents cfg now ts).res.actions ≠ [])) ∧
    ((archive_old_files fs true cfg now ts).fs = fs ∧
      (archive_old_files fs true cfg now ts).res.actions =
        (archive_old_files fs false cfg now ts).res.actions ∧
      ((archive_old_files fs false cfg now ts).trace ≠ [] →
        (archive_old_files fs true cfg now ts).res.actions ≠ [])) ∧
    ((cleanup_temp_files fs true cfg now).fs = fs ∧
      (cleanup_temp_files fs true cfg now).res.actions =
        (cleanup_temp_files fs false cfg now).res.actions ∧
      ((cleanup_temp_files fs false cfg now).trace ≠ [] →
        (cleanup_temp_files fs true cfg now).res.actions ≠ [])) ∧
    ((handle_duplicates fs true cfg ts).fs = fs ∧
      (handle_duplicates fs true cfg ts).res.actions =
        (handle_duplicates fs false cfg ts).res.actions ∧
      ((handle_duplicates fs false cfg ts).trace ≠ [] →
        (handle_duplicates fs true cfg ts).res.actions ≠ [])) := by
  refine ⟨⟨?_, ?_, ?_⟩, ⟨?_, ?_, ?_⟩, ⟨?_, ?_, ?_⟩, ⟨?_, ?_, ?_⟩⟩
  · exact organize_dry_fs cfg useRecents now ts (topFiles fs) _
  · unfold organize_files
    rw [(organize_foldl_res cfg true useRecents now ts (topFiles fs) _).1,
      (organize_foldl_res cfg false useRecents now ts (topFiles fs) _).1]
  · intro hne
    unfold organize_files at hne ⊢
    have h1 := organize_trace_le cfg false useRecents now ts (topFiles fs)
      { fs := fs, res := {}, trace := [] } (by simp)
    have h3 := List.ne_nil_of_length_pos (Nat.lt_of_lt_of_le (List.length_pos.mpr hne) h1)
    rw [(organize_foldl_res cfg false useRecents now ts (topFiles fs) _).1] at h3
    rw [(organize_foldl_res cfg true useRecents now ts (topFiles fs) _).1]
    exact h3
  · exact archive_dry_fs cfg now ts _ _
  · unfold archive_old_files
    rw [archive_foldl_actions cfg true now ts _ _, archive_foldl_actions cfg false now ts _ _]
  · intro hne
    unfold archive_old_files at hne ⊢
    have h1 := archive_trace_le cfg false now ts
      ((topFiles fs).filter (fun f => !cfg.is_hidden f.name && is_old_file cfg now f.mtime))
      { fs := fs, res := {}, trace := [] } (by simp)
    have h3 := List.ne_nil_of_length_pos (Nat.lt_of_lt_of_le (List.length_pos.mpr hne) h1)
    rw [archive_foldl_actions cfg false now ts _ _] at h3
    rw [archive_foldl_actions cfg true now ts _ _]
    exact h3
  · exact cleanup_dry_fs now _ _
  · unfold cleanup_temp_files
    rw [cleanup_foldl_actions true now _ _, cleanup_foldl_actions false now _ _]
  · intro hne
    unfold cleanup_temp_files at hne ⊢
    have h1 := cleanup_trace_le false now
      ((topFiles fs).filter (fun f => is_auto_deletable cfg now f))
      { fs := fs, res := {}, trace := [] } (by simp)
    have h3 := List.ne_nil_of_length_pos (Nat.lt_of_lt_of_le (List.length_pos.mpr hne) h1)
    rw [cleanup_foldl_actions false now _ _] at h3
    rw [cleanup_foldl_actions true now _ _]
    exact h3
  · exact handle_dry_fs cfg ts _ _
  · unfold handle_duplicates
    rw [handle_foldl_actions cfg true ts _ _, handle_foldl_actions cfg false ts _ _]
  · intro hne
    unfold handle_duplicates at hne ⊢
    have h1 := handle_trace_le cfg false ts (find_duplicates fs true cfg)
      { fs := fs, res := {}, trace := [] } (by simp)
    have h3 := List.ne_nil_of_length_pos (Nat.lt_of_lt_of_le (List.length_pos.mpr hne) h1)
    rw [handle_foldl_actions cfg false ts _ _] at h3
    rw [handle_foldl_actions cfg true ts _ _]
    exact h3

set_option maxRecDepth 100000 in
/-- Witness for C3: a directory with an old temp file, two duplicates and
ordinary files - every real run would do work, every dry run records
nonempty actions and leaves the filesystem unchanged. -/
theorem C3_witness :
    (organize_files [⟨["a.ica"], [1], 0⟩, ⟨["b.txt"], [7], 0⟩, ⟨["c.txt"], [7], 0⟩] true false
        DEFAULT_CONFIG 1000000000 "TS").fs =
      [⟨["a.ica"], [1], 0⟩, ⟨["b.txt"], [7], 0⟩, ⟨["c.txt"], [7], 0⟩] ∧
    (organize_files [⟨["a.ica"], [1], 0⟩, ⟨["b.txt"], [7], 0⟩, ⟨["c.txt"], [7], 0⟩] true false
        DEFAULT_CONFIG 1000000000 "TS").res.actions ≠ [] ∧
    (archive_old_files [⟨["a.ica"], [1], 0⟩, ⟨["b.txt"], [7], 0⟩, ⟨["c.txt"], [7], 0⟩] true
        DEFAULT_CONFIG 1000000000 "TS").res.actions ≠ [] ∧
    (cleanup_temp_files [⟨["a.ica"], [1], 0⟩, ⟨["b.txt"], [7], 0⟩, ⟨["c.txt"], [7], 0⟩] true
        DEFAULT_CONFIG 1000000000).res.actions ≠ [] ∧
    (handle_duplicates [⟨["a.ica"], [1], 0⟩, ⟨["b.txt"], [7], 0⟩, ⟨["c.txt"], [7], 0⟩] true
        DEFAULT_CONFIG "TS").res.actions ≠ [] := by
  have h := C3_dry_run [⟨["a.ica"], [1], 0⟩, ⟨["b.txt"], [7], 0⟩, ⟨["c.txt"], [7], 0⟩] false
    DEFAULT_CONFIG 1000000000 "TS"
  exact ⟨h.1.1, h.1.2.2 (by decide), h.2.1.2.2 (by decide), h.2.2.1.2.2 (by decide),
    h.2.2.2.2.2 (by decide)⟩

/-! ### C7: idempotence of organize -/

theorem generate_unique_filename_length (fs : FS) (dest : FPath) (ts : String)
    (h : dest ≠ []) :
    (generate_unique_filename fs dest ts).length = dest.length := by
  unfold generate_unique_filename
  split
  · have hpos : 0 < dest.length := List.length_pos.mpr h
    simp [List.length_append, List.length_dropLast]
    omega
  · rfl

theorem shutil_move_ok_shape {fs : FS} {src dst : FPath} {fs2 : FS} {actual : FPath}
    {over : Option FSFile} (h : shutil_move fs src dst = .ok (fs2, actual, over)) :
    fs2 = relocate fs src actual ∧ dst.length ≤ actual.length := by
  unfold shutil_move at h
  split at h
  · dsimp only at h
    split at h
    · cases h
    · injection h with h2
      simp only [Prod.mk.injEq] at h2
      obtain ⟨h3, h4, h5⟩ := h2
      subst h4
      exact ⟨h3.symm, by simp⟩
  · injection h with h2
    simp only [Prod.mk.injEq] at h2
    obtain ⟨h3, h4, h5⟩ := h2
    subst h4
    exact ⟨h3.symm, le_refl _⟩

theorem tryMove_ok_shape {fs : FS} {ts : String} {mk : List FPath} {src dst : FPath}
    {fs2 : FS} {op : FsOp} (hd : dst ≠ [])
    (h : tryMove fs ts mk src dst = .ok (fs2, op)) :
    ∃ actual over, fs2 = relocate fs src actual ∧ op = FsOp.moved src dst actual over ∧
      dst.length ≤ actual.length := by
  unfold tryMove at h
  split at h
  · cases h
  · dsimp only at h
    rcases hsm : shutil_move fs src (generate_unique_filename fs dst ts) with e | r
    · rw [hsm] at h
      cases h
    · rw [hsm] at h
      injection h with h2
      simp only [Prod.mk.injEq] at h2
      obtain ⟨h3, h4⟩ := h2
      obtain ⟨hrel, hlen⟩ := shutil_move_ok_shape hsm
      refine ⟨r.2.1, r.2.2, ?_, h4.symm, ?_⟩
      · rw [← h3, hrel]
      · rw [← generate_unique_filename_length fs dst ts hd]
        exact hlen

theorem organizeStep_error_le (cfg : Config) (dryRun useRecents : Bool) (now : Int)
    (ts : String) (st : RunState) (f : FSFile) :
    st.res.error_count ≤ (organizeStep cfg dryRun useRecents now ts st f).res.error_count := by
  unfold organizeStep
  split
  · exact le_refl _
  · dsimp only
    split
    · exact le_refl _
    · split
      · exact le_refl _
      · exact Nat.le_succ _

theorem organize_error_monotone (cfg : Config) (dryRun useRecents : Bool) (now : Int)
    (ts : String) :
    ∀ (files : List FSFile) (st : RunState),
      st.res.error_count ≤
        (files.foldl (organizeStep cfg dryRun useRecents now ts) st).res.error_count := by
  intro files
  induction files with
  | nil => intro st; exact le_refl _
  | cons f rest ih =>
    intro st
    rw [List.foldl_cons]
    exact Nat.le_trans (organizeStep_error_le cfg dryRun useRecents now ts st f) (ih _)

theorem mem_relocate {fs : FS} {src dst : FPath} {g : FSFile}
    (h : g ∈ relocate fs src dst) :
    ∃ g0 ∈ fs, g = (if g0.path == src then { g0 with path := dst } else g0) := by
  unfold relocate at h
  rcases List.mem_map.mp h with ⟨g0, hg0, hmap⟩
  exact ⟨g0, List.mem_of_mem_filter hg0, hmap.symm⟩

theorem organizeStep_ok_proj (cfg : Config) (useRecents : Bool) (now : Int) (ts : String)
    (st : RunState) (f : FSFile) (p : FS × FsOp) (hh : cfg.is_hidden f.name = false)
    (htm : tryMove st.fs ts [[(organizeAction cfg useRecents now f).1]] f.path
      [(organizeAction cfg useRecents now f).1, f.name] = .ok p) :
    (organizeStep cfg false useRecents now ts st f).fs = p.1 ∧
      (organizeStep cfg false useRecents now ts st f).res.error_count =
        st.res.error_count := by
  unfold organizeStep
  rw [hh, if_neg (by simp)]
  dsimp only
  rw [if_neg (by simp), htm]
  exact ⟨rfl, rfl⟩

theorem organizeStep_err_proj (cfg : Config) (useRecents : Bool) (now : Int) (ts : String)
    (st : RunState) (f : FSFile) (e : String) (hh : cfg.is_hidden f.name = false)
    (htm : tryMove st.fs ts [[(organizeAction cfg useRecents now f).1]] f.path
      [(organizeAction cfg useRecents now f).1, f.name] = .error e) :
    (organizeStep cfg false useRecents now ts st f).res.error_count =
      st.res.error_count + 1 := by
  unfold organizeStep
  rw [hh, if_neg (by simp)]
  dsimp only
  rw [if_neg (by simp), htm]

theorem organize_run_top_hidden (cfg : Config) (useRecents : Bool) (now : Int) (ts : String) :
    ∀ (files : List FSFile) (st : RunState),
      (∀ g ∈ st.fs, g.path.length = 1 → (cfg.is_hidden g.name = true ∨ g ∈ files)) →
      (files.foldl (organizeStep cfg false useRecents now ts) st).res.error_count =
        st.res.error_count →
      ∀ g ∈ (files.foldl (organizeStep cfg false useRecents now ts) st).fs,
        g.path.length = 1 → cfg.is_hidden g.name = true := by
  intro files
  induction files with
  | nil =>
    intro st h0 _ g hg hlen
    rcases h0 g hg hlen with hh | hmem
    · exact hh
    · cases hmem
  | cons f rest ih =>
    intro st h0 herr
    rw [List.foldl_cons] at herr ⊢
    by_cases hh : cfg.is_hidden f.name = true
    · rw [organizeStep_hidden cfg false useRecents now ts st f hh] at herr ⊢
      apply ih _ _ herr
      intro g hg hlen
      rcases h0 g hg hlen with hgh | hgm
      · exact Or.inl hgh
      · rcases List.mem_cons.mp hgm with rfl | hgr
        · exact Or.inl hh
        · exact Or.inr hgr
    · have hh' : cfg.is_hidden f.name = false := Bool.eq_false_iff.mpr hh
      rcases htm : tryMove st.fs ts [[(organizeAction cfg useRecents now f).1]] f.path
          [(organizeAction cfg useRecents now f).1, f.name] with e | p
      · exfalso
        have hstep := organizeStep_err_proj cfg useRecents now ts st f e hh' htm
        have hmono := organize_error_monotone cfg false useRecents now ts rest
          (organizeStep cfg false useRecents now ts st f)
        rw [hstep, herr] at hmono
        omega
      · have hstep := organizeStep_ok_proj cfg useRecents now ts st f p hh' htm
        rw [← hstep.2] at herr
        apply ih _ _ herr
        intro g hg hglen
        rw [hstep.1] at hg
        obtain ⟨actual, over, hfs2, hop, hlen⟩ := tryMove_ok_shape (by simp) htm
        rw [hfs2] at hg
        rcases mem_relocate hg with ⟨g0, hg0, hgeq⟩
        by_cases hp : (g0.path == f.path) = true
        · exfalso
          rw [hgeq, if_pos hp] at hglen
          have hal : actual.length = 1 := hglen
          have hlen2 : 2 ≤ actual.length := by simpa using hlen
          omega
        · rw [hgeq, if_neg hp]
          have hgg : g0.path.length = 1 := by
            rw [hgeq, if_neg hp] at hglen
            exact hglen
          rcases h0 g0 hg0 hgg with hgh | hgm
          · exact Or.inl hgh
          · rcases List.mem_cons.mp hgm with rfl | hgr
            · exact absurd (by simp) hp
            · exact Or.inr hgr

theorem organize_all_hidden (cfg : Config) (dryRun useRecents : Bool) (now : Int)
    (ts : String) :
    ∀ (files : List FSFile) (st : RunState),
      (∀ f ∈ files, cfg.is_hidden f.name = true) →
      (files.foldl (organizeStep cfg dryRun useRecents now ts) st).res.success_count =
          st.res.success_count ∧
        (files.foldl (organizeStep cfg dryRun useRecents now ts) st).res.actions =
          st.res.actions := by
  intro files
  induction files with
  | nil => intro st _; exact ⟨rfl, rfl⟩
  | cons f rest ih =>
    intro st hall
    rw [List.foldl_cons,
      organizeStep_hidden cfg dryRun useRecents now ts st f (hall f (List.mem_cons_self f rest))]
    exact ih _ (fun g hg => hall g (List.mem_cons_of_mem f hg))

/-- C7: if a non-dry organize run completes with no per-file errors (every
processed file moved successfully), an immediately following organize run on
the resulting directory reports zero moves and an empty action list - all
prior top-level files now reside inside category subdirectories and only
top-level regular files are candidates. -/
theorem C7_organize_twice (fs : FS) (useRecents useRecents2 : Bool) (cfg : Config)
    (now now2 : Int) (ts ts2 : String)
    (herr : (organize_files fs false useRecents cfg now ts).res.error_count = 0) :
    (organize_files (organize_files fs false useRecents cfg now ts).fs false useRecents2 cfg
        now2 ts2).res.success_count = 0 ∧
      (organize_files (organize_files fs false useRecents cfg now ts).fs false useRecents2 cfg
        now2 ts2).res.actions = [] := by
  have hhid : ∀ g ∈ (organize_files fs false useRecents cfg now ts).fs,
      g.path.length = 1 → cfg.is_hidden g.name = true := by
    apply organize_run_top_hidden cfg useRecents now ts (topFiles fs)
      { fs := fs, res := {}, trace := [] }
    · intro g hg hlen
      exact Or.inr (List.mem_filter.mpr ⟨hg, by simp [hlen]⟩)
    · exact herr
  have hall : ∀ f ∈ topFiles (organize_files fs false useRecents cfg now ts).fs,
      cfg.is_hidden f.name = true := by
    intro f hf
    have hm := List.mem_filter.mp hf
    exact hhid f hm.1 (by simpa using hm.2)
  have h := organize_all_hidden cfg false useRecents2 now2 ts2
    (topFiles (organize_files fs false useRecents cfg now ts).fs)
    { fs := (organize_files fs false useRecents cfg now ts).fs, res := {}, trace := [] } hall
  exact ⟨h.1, h.2⟩

/-- Witness for C7: one movable file and one hidden file; the first run moves
`b.txt` into `Documents/` with no errors, the second run does nothing. -/
theorem C7_witness :
    (organize_files [⟨["b.txt"], [7], 0⟩, ⟨[".hidden"], [1], 0⟩] false false DEFAULT_CONFIG 0
        "TS").res.error_count = 0 ∧
      (organize_files
          (organize_files [⟨["b.txt"], [7], 0⟩, ⟨[".hidden"], [1], 0⟩] false false
            DEFAULT_CONFIG 0 "TS").fs false false DEFAULT_CONFIG 1 "T2").res.success_count =
        0 ∧
      (organize_files
          (organize_files [⟨["b.txt"], [7], 0⟩, ⟨[".hidden"], [1], 0⟩] false false
            DEFAULT_CONFIG 0 "TS").fs false false DEFAULT_CONFIG 1 "T2").res.actions = [] := by
  refine ⟨by decide, ?_⟩
  exact C7_organize_twice [⟨["b.txt"], [7], 0⟩, ⟨[".hidden"], [1], 0⟩] false false
    DEFAULT_CONFIG 0 1 "TS" "T2" (by decide)

/-! ### C4: duplicate-group ordering and relocation -/

set_option maxRecDepth 100000 in
/-- C4 counterexample: two byte-identical files with equal modification
times, enumerated as `b.txt` before `a.txt`.  The source sorts by
modification time only; Python's stable sort keeps the enumeration order, so
`b.txt` is kept and `a.txt` is relocated.  The claimed lexical tie-break
would keep `a.txt` and relocate `b.txt`.  This falsifies the claim that ties
are broken by lexical path order. -/
theorem C4_counterexample :
    isFileAt (handle_duplicates [⟨["b.txt"], [7], 0⟩, ⟨["a.txt"], [7], 0⟩] false
        DEFAULT_CONFIG "TS").fs ["_Duplicates", "a.txt"] = true ∧
      isFileAt (handle_duplicates [⟨["b.txt"], [7], 0⟩, ⟨["a.txt"], [7], 0⟩] false
        DEFAULT_CONFIG "TS").fs ["_Duplicates", "b.txt"] = false ∧
      isFileAt (handle_duplicates [⟨["b.txt"], [7], 0⟩, ⟨["a.txt"], [7], 0⟩] false
        DEFAULT_CONFIG "TS").fs ["b.txt"] = true := by
  decide

theorem insertMtime_perm (x : FSFile) (l : List FSFile) :
    (insertMtime x l).Perm (x :: l) := by
  induction l with
  | nil => exact List.Perm.refl _
  | cons y ys ih =>
    unfold insertMtime
    split
    · exact List.Perm.refl _
    · exact (List.Perm.cons y ih).trans (List.Perm.swap x y ys)

theorem sortByMtime_perm (l : List FSFile) : (sortByMtime l).Perm l := by
  induction l with
  | nil => exact List.Perm.refl _
  | cons x xs ih =>
    exact (insertMtime_perm x (sortByMtime xs)).trans (List.Perm.cons x ih)

theorem insertMtime_pairwise (x : FSFile) (l : List FSFile)
    (h : l.Pairwise (fun a b => a.mtime ≤ b.mtime)) :
    (insertMtime x l).Pairwise (fun a b => a.mtime ≤ b.mtime) := by
  induction l with
  | nil => simp [insertMtime]
  | cons y ys ih =>
    unfold insertMtime
    split
    · rename_i hxy
      have hxy' : x.mtime ≤ y.mtime := of_decide_eq_true hxy
      refine List.pairwise_cons.mpr ⟨?_, h⟩
      intro b hb
      rcases List.mem_cons.mp hb with rfl | hbm
      · exact hxy'
      · exact le_trans hxy' (List.rel_of_pairwise_cons h hbm)
    · rename_i hxy
      have hyx : y.mtime ≤ x.mtime :=
        le_of_not_le (fun hc => hxy (decide_eq_true hc))
      rcases List.pairwise_cons.mp h with ⟨hy, hys⟩
      refine List.pairwise_cons.mpr ⟨?_, ih hys⟩
      intro b hb
      rcases (insertMtime_perm x ys).mem_iff.mp hb with hbm
      rcases List.mem_cons.mp hbm with rfl | hbm2
      · exact hyx
      · exact hy b hbm2

theorem sortByMtime_pairwise (l : List FSFile) :
    (sortByMtime l).Pairwise (fun a b => a.mtime ≤ b.mtime) := by
  induction l with
  | nil => simp [sortByMtime]
  | cons x xs ih => exact insertMtime_pairwise x (sortByMtime xs) ih

theorem insertMtime_filter (x : FSFile) (l : List FSFile) (t : Int) :
    (insertMtime x l).filter (fun f => f.mtime == t) =
      (x :: l).filter (fun f => f.mtime == t) := by
  induction l with
  | nil => rfl
  | cons y ys ih =>
    unfold insertMtime
    split
    · rfl
    · rename_i hxy
      have hyx : y.mtime < x.mtime :=
        lt_of_not_le (fun hc => hxy (decide_eq_true hc))
      by_cases hx : (x.mtime == t) = true
      · by_cases hy : (y.mtime == t) = true
        · exfalso
          have hx' := eq_of_beq hx
          have hy' := eq_of_beq hy
          rw [hx'] at hyx
          rw [hy'] at hyx
          exact lt_irrefl t hyx
        · simp only [List.filter_cons, hx, hy, ih]
          simp [List.filter_cons, hx, hy]
      · by_cases hy : (y.mtime == t) = true
        · simp only [List.filter_cons, hx, hy, ih]
          simp [List.filter_cons, hx, hy]
        · simp only [List.filter_cons, hx, hy, ih]
          simp [List.filter_cons, hx, hy]

theorem sortByMtime_filter (l : List FSFile) (t : Int) :
    (sortByMtime l).filter (fun f => f.mtime == t) = l.filter (fun f => f.mtime == t) := by
  induction l with
  | nil => rfl
  | cons x xs ih =>
    have h1 := insertMtime_filter x (sortByMtime xs) t
    calc (sortByMtime (x :: xs)).filter (fun f => f.mtime == t)
        = (x :: sortByMtime xs).filter (fun f => f.mtime == t) := h1
      _ = (x :: xs).filter (fun f => f.mtime == t) := by
          simp only [List.filter_cons, ih]

theorem handleDupStep_trace (cfg : Config) (ts : String) (st : RunState) (f : FSFile) :
    ∃ op : FsOp, (handleDupStep cfg false ts st f).trace = st.trace ++ [op] ∧
      op.src = f.path ∧ op.requested = cfg.duplicates_folder :: f.path := by
  unfold handleDupStep
  dsimp only
  rw [if_neg (by simp)]
  rcases htm : tryMove st.fs ts
      ([cfg.duplicates_folder] :: mkdirChain (cfg.duplicates_folder :: f.path).dropLast)
      f.path (cfg.duplicates_folder :: f.path) with e | p
  · exact ⟨.failedMove f.path (cfg.duplicates_folder :: f.path), rfl, rfl, rfl⟩
  · obtain ⟨actual, over, hfs2, hop, hlen⟩ := tryMove_ok_shape (by simp) htm
    refine ⟨p.2, rfl, ?_, ?_⟩
    · rw [hop]
      rfl
    · rw [hop]
      rfl

theorem handleDup_foldl_trace (cfg : Config) (ts : String) :
    ∀ (dups : List FSFile) (st : RunState),
      ((dups.foldl (handleDupStep cfg false ts) st).trace).map
          (fun op => (op.src, op.requested)) =
        st.trace.map (fun op => (op.src, op.requested)) ++
          dups.map (fun f => (f.path, cfg.duplicates_folder :: f.path)) := by
  intro dups
  induction dups with
  | nil => intro st; simp
  | cons f rest ih =>
    intro st
    rw [List.foldl_cons, ih]
    obtain ⟨op, htr, hsrc, hreq⟩ := handleDupStep_trace cfg ts st f
    rw [htr]
    simp [hsrc, hreq]

theorem handle_foldl_trace (cfg : Config) (ts : String) :
    ∀ (groups : List (String × List FSFile)) (st : RunState),
      ((groups.foldl
          (fun st g => ((sortByMtime g.2).drop 1).foldl (handleDupStep cfg false ts) st)
          st).trace).map (fun op => (op.src, op.requested)) =
        st.trace.map (fun op => (op.src, op.requested)) ++
          groups.flatMap (fun g => ((sortByMtime g.2).drop 1).map
            (fun f => (f.path, cfg.duplicates_folder :: f.path))) := by
  intro groups
  induction groups with
  | nil => intro st; simp
  | cons g rest ih =>
    intro st
    rw [List.foldl_cons, ih, handleDup_foldl_trace cfg ts _ st]
    simp

/-- All members of all groups, in order. -/
def joinGroups (gs : List (String × List FSFile)) : List FSFile := gs.flatMap (fun g => g.2)

theorem groupInsert_join_perm (gs : List (String × List FSFile)) (h : String) (f : FSFile) :
    (joinGroups (groupInsert gs h f)).Perm (joinGroups gs ++ [f]) := by
  induction gs with
  | nil => simp [joinGroups, groupInsert]
  | cons g0 rest ih =>
    unfold groupInsert
    split
    · simp only [joinGroups, List.flatMap_cons]
      rw [List.append_assoc g0.2 [f], List.append_assoc g0.2]
      exact List.Perm.append_left g0.2 List.perm_append_comm
    · simp only [joinGroups, List.flatMap_cons] at ih ⊢
      rw [List.append_assoc g0.2]
      exact List.Perm.append_left g0.2 ih

theorem groups_fold_join_perm (hash : FSFile → String) :
    ∀ (files : List FSFile) (gs0 : List (String × List FSFile)),
      (joinGroups (files.foldl (fun gs f => groupInsert gs (hash f) f) gs0)).Perm
        (joinGroups gs0 ++ files) := by
  intro files
  induction files with
  | nil => intro gs0; simp
  | cons f rest ih =>
    intro gs0
    rw [List.foldl_cons]
    refine (ih (groupInsert gs0 (hash f) f)).trans ?_
    refine (List.Perm.append_right rest (groupInsert_join_perm gs0 (hash f) f)).trans ?_
    rw [List.append_assoc]
    exact List.Perm.append_left _ (by simp)

theorem sortByMtime_eq_cons {l : List FSFile} {o : FSFile}
    (h : (sortByMtime l).head? = some o) : ∃ t, sortByMtime l = o :: t := by
  rcases hs : sortByMtime l with _ | ⟨a, t⟩
  · rw [hs] at h
    cases h
  · rw [hs] at h
    injection h with h2
    exact ⟨t, by rw [h2]⟩

theorem mem_of_sort_head {l : List FSFile} {o : FSFile}
    (h : (sortByMtime l).head? = some o) : o ∈ l := by
  obtain ⟨t, ht⟩ := sortByMtime_eq_cons h
  exact (sortByMtime_perm l).mem_iff.mp (by rw [ht]; exact List.mem_cons_self o t)

theorem mem_of_mem_sort_drop {l : List FSFile} {f : FSFile}
    (h : f ∈ (sortByMtime l).drop 1) : f ∈ l :=
  (sortByMtime_perm l).mem_iff.mp (List.mem_of_mem_drop h)

theorem joinGroups_sublist {gs1 gs2 : List (String × List FSFile)} (h : gs1.Sublist gs2) :
    (joinGroups gs1).Sublist (joinGroups gs2) := by
  induction h with
  | slnil => exact List.Sublist.refl _
  | cons g _ ih =>
    exact ih.trans (List.sublist_append_right g.2 _)
  | cons₂ g _ ih =>
    exact List.Sublist.append_left ih g.2

/-- In a group list whose member paths are globally distinct, the head of any
group's stable mtime-sort never appears among the non-original (dropped)
members of any group. -/
theorem head_not_in_tails :
    ∀ (gs : List (String × List FSFile)),
      ((joinGroups gs).map FSFile.path).Nodup →
      ∀ g ∈ gs, ∀ o, (sortByMtime g.2).head? = some o →
        o.path ∉ gs.flatMap (fun g' => ((sortByMtime g'.2).drop 1).map FSFile.path) := by
  intro gs
  induction gs with
  | nil =>
    intro _ g hg
    cases hg
  | cons g0 rest ih =>
    intro hnd g hg o hhead hmem
    have hnd' : ((g0.2.map FSFile.path) ++ ((joinGroups rest).map FSFile.path)).Nodup := by
      have : joinGroups (g0 :: rest) = g0.2 ++ joinGroups rest := by
        simp [joinGroups, List.flatMap_cons]
      rw [this, List.map_append] at hnd
      exact hnd
    rcases List.nodup_append.mp hnd' with ⟨hnd0, hndR, hdisj⟩
    rcases List.mem_append.mp (by
        simpa only [List.flatMap_cons, List.mem_append] using hmem) with hin0 | hinR
    · -- o.path among the dropped members of g0
      rcases List.mem_map.mp hin0 with ⟨f', hf'd, hf'p⟩
      have hf'g0 : f' ∈ g0.2 := mem_of_mem_sort_drop hf'd
      rcases List.mem_cons.mp hg with rfl | hgr
      · -- g = g0: o is the head, f' in the tail, but paths in g0.2 are distinct
        obtain ⟨t, ht⟩ := sortByMtime_eq_cons hhead
        have hsortnd : ((sortByMtime g.2).map FSFile.path).Nodup :=
          (List.Perm.nodup_iff ((sortByMtime_perm g.2).map FSFile.path)).mpr hnd0
        rw [ht] at hsortnd hf'd
        simp only [List.drop_succ_cons, List.drop_zero] at hf'd
        have hsortnd2 : (o.path :: t.map FSFile.path).Nodup := by
          simpa using hsortnd
        rcases List.nodup_cons.mp hsortnd2 with ⟨hnotin, _⟩
        exact hnotin (hf'p ▸ List.mem_map_of_mem FSFile.path hf'd)
      · -- g in rest: o.path lives in the rest segment, f'.path in g0's
        have ho : o.path ∈ (joinGroups rest).map FSFile.path :=
          List.mem_map_of_mem FSFile.path
            (List.mem_flatMap.mpr ⟨g, hgr, mem_of_sort_head hhead⟩)
        exact hdisj (hf'p ▸ List.mem_map_of_mem FSFile.path hf'g0) ho
    · -- o.path among dropped members of some group in rest
      rcases List.mem_cons.mp hg with rfl | hgr
      · -- g = g0: o.path is in g0's segment, the dropped member in rest's
        rcases List.mem_flatMap.mp hinR with ⟨g', hg', hpf⟩
        rcases List.mem_map.mp hpf with ⟨f', hf'd, hf'p⟩
        have hf'm : f' ∈ g'.2 := mem_of_mem_sort_drop hf'd
        have ho : o.path ∈ g.2.map FSFile.path :=
          List.mem_map_of_mem FSFile.path (mem_of_sort_head hhead)
        exact hdisj ho
          (hf'p ▸ List.mem_map_of_mem FSFile.path (List.mem_flatMap.mpr ⟨g', hg', hf'm⟩))
      · exact ih hndR g hgr o hhead hinR

set_option maxRecDepth 100000 in
/-- C4 (amended): in `handle_duplicates`, each duplicate group is reordered
by modification time ascending with ties broken by the enumeration
(pre-sort) order - Python's sort is stable and no lexical tie-break exists
in the source.  The first member of that stable order is kept (it is never
the source of any move of the run, given globally distinct paths), and every
other member is requested to be relocated to
`duplicates_folder / its path relative to the scanned root` (collision
resolution may still retime the final name). -/
theorem C4_duplicate_ordering (fs : FS) (cfg : Config) (ts : String)
    (hnd : (pathsOf fs).Nodup) :
    (∀ g ∈ find_duplicates fs true cfg,
      (sortByMtime g.2).Perm g.2 ∧
        (sortByMtime g.2).Pairwise (fun a b => a.mtime ≤ b.mtime) ∧
        ∀ t, (sortByMtime g.2).filter (fun f => f.mtime == t) =
          g.2.filter (fun f => f.mtime == t)) ∧
      (((handle_duplicates fs false cfg ts).trace).map (fun op => (op.src, op.requested)) =
        (find_duplicates fs true cfg).flatMap (fun g => ((sortByMtime g.2).drop 1).map
          (fun f => (f.path, cfg.duplicates_folder :: f.path)))) ∧
      (∀ g ∈ find_duplicates fs true cfg, ∀ o, (sortByMtime g.2).head? = some o →
        ∀ op ∈ (handle_duplicates fs false cfg ts).trace, op.src ≠ o.path) := by
  have htrace : ((handle_duplicates fs false cfg ts).trace).map
      (fun op => (op.src, op.requested)) =
      (find_duplicates fs true cfg).flatMap (fun g => ((sortByMtime g.2).drop 1).map
        (fun f => (f.path, cfg.duplicates_folder :: f.path))) := by
    unfold handle_duplicates
    rw [handle_foldl_trace cfg ts (find_duplicates fs true cfg)
      { fs := fs, res := {}, trace := [] }]
    rfl
  refine ⟨?_, htrace, ?_⟩
  · intro g _
    exact ⟨sortByMtime_perm g.2, sortByMtime_pairwise g.2, sortByMtime_filter g.2⟩
  · -- global path distinctness for the reported groups
    have hfiltnd : ((fs.filter (fun f => !should_skip_for_duplicates cfg f)).map
        FSFile.path).Nodup :=
      List.Nodup.sublist ((List.filter_sublist fs).map FSFile.path) hnd
    have hperm := groups_fold_join_perm
      (fun f => compute_file_hash f.content cfg.hash_buffer_size)
      (fs.filter (fun f => !should_skip_for_duplicates cfg f)) []
    have hjoinnd : ((joinGroups ((fs.filter
        (fun f => !should_skip_for_duplicates cfg f)).foldl
          (fun gs f => groupInsert gs (compute_file_hash f.content cfg.hash_buffer_size) f)
          [])).map FSFile.path).Nodup := by
      have h2 := List.Perm.map FSFile.path hperm
      have h3 : ((joinGroups [] ++ fs.filter
          (fun f => !should_skip_for_duplicates cfg f)).map FSFile.path).Nodup := by
        simpa [joinGroups] using hfiltnd
      exact (List.Perm.nodup_iff h2).mpr h3
    have hdupnd : ((joinGroups (find_duplicates fs true cfg)).map FSFile.path).Nodup := by
      refine List.Nodup.sublist ?_ hjoinnd
      refine List.Sublist.map FSFile.path (joinGroups_sublist ?_)
      unfold find_duplicates
      exact List.filter_sublist _
    intro g hg o hhead op hop heq
    have hpair : (op.src, op.requested) ∈
        (find_duplicates fs true cfg).flatMap (fun g => ((sortByMtime g.2).drop 1).map
          (fun f => (f.path, cfg.duplicates_folder :: f.path))) := by
      rw [← htrace]
      exact List.mem_map_of_mem _ hop
    have hsrc : op.src ∈ (find_duplicates fs true cfg).flatMap
        (fun g' => ((sortByMtime g'.2).drop 1).map FSFile.path) := by
      rcases List.mem_flatMap.mp hpair with ⟨g', hg', hp⟩
      rcases List.mem_map.mp hp with ⟨f', hf', hfe⟩
      refine List.mem_flatMap.mpr ⟨g', hg', ?_⟩
      have : op.src = f'.path := by
        have := congrArg Prod.fst hfe
        simpa using this.symm
      rw [this]
      exact List.mem_map_of_mem FSFile.path hf'
    rw [heq] at hsrc
    exact head_not_in_tails (find_duplicates fs true cfg) hdupnd g hg o hhead hsrc

set_option maxRecDepth 100000 in
/-- Witness for C4: the tie scenario of the counterexample - the trace of
the run matches the stable-sort prediction (move `a.txt`, keep `b.txt`). -/
theorem C4_witness :
    (pathsOf [⟨["b.txt"], [7], 0⟩, ⟨["a.txt"], [7], 0⟩]).Nodup ∧
      ((handle_duplicates [⟨["b.txt"], [7], 0⟩, ⟨["a.txt"], [7], 0⟩] false DEFAULT_CONFIG
          "TS").trace).map (fun op => (op.src, op.requested)) =
        (find_duplicates [⟨["b.txt"], [7], 0⟩, ⟨["a.txt"], [7], 0⟩] true
          DEFAULT_CONFIG).flatMap (fun g => ((sortByMtime g.2).drop 1).map
            (fun f => (f.path, DEFAULT_CONFIG.duplicates_folder :: f.path))) :=
  ⟨by decide,
    (C4_duplicate_ordering [⟨["b.txt"], [7], 0⟩, ⟨["a.txt"], [7], 0⟩] DEFAULT_CONFIG "TS"
      (by decide)).2.1⟩

/-! ### C1: content preservation and the sole deletion path -/

theorem contentsOf_relocate (fs : FS) (src dst : FPath) :
    contentsOf (relocate fs src dst) =
      contentsOf (fs.filter (fun f => !(f.path == dst))) := by
  unfold relocate contentsOf
  rw [List.map_map]
  apply List.map_congr_left
  intro f _
  show ((if f.path == src then { f with path := dst } else f) : FSFile).content = f.content
  split
  · rfl
  · rfl

theorem filter_dst_perm (dst : FPath) :
    ∀ (fs : FS), (pathsOf fs).Nodup →
      (contentsOf (fs.filter (fun f => !(f.path == dst))) ++
        ((fs.find? (fun f => f.path == dst)).toList.map FSFile.content)).Perm
        (contentsOf fs) := by
  intro fs
  induction fs with
  | nil => intro _; simp [contentsOf]
  | cons g rest ih =>
    intro hnd
    have hndc : (g.path :: pathsOf rest).Nodup := hnd
    have hnd2 := List.nodup_cons.mp hndc
    have hnd' : (pathsOf rest).Nodup := hnd2.2
    have hgnot : g.path ∉ pathsOf rest := hnd2.1
    by_cases hp : (g.path == dst) = true
    · have hdst : g.path = dst := eq_of_beq hp
      have hrest : rest.filter (fun f => !(f.path == dst)) = rest := by
        apply List.filter_eq_self.mpr
        intro f hf
        have hne : f.path ≠ dst := by
          intro he
          exact hgnot (by
            rw [hdst, ← he]
            exact List.mem_map_of_mem FSFile.path hf)
        simp [hne]
      have hfind : (g :: rest).find? (fun f => f.path == dst) = some g :=
        List.find?_cons_of_pos rest hp
      rw [List.filter_cons_of_neg (by simp [hp]), hrest, hfind]
      simp only [Option.toList_some, List.map_cons, List.map_nil]
      exact List.perm_append_singleton g.content (contentsOf rest)
    · have hfind : (g :: rest).find? (fun f => f.path == dst) =
          rest.find? (fun f => f.path == dst) :=
        List.find?_cons_of_neg rest (by simp [hp])
      rw [List.filter_cons_of_pos (by simp [hp]), hfind]
      have hstep := ih hnd'
      simp only [contentsOf, List.map_cons, List.cons_append]
      exact List.Perm.cons g.content hstep

theorem relocate_nodup (fs : FS) (src dst : FPath) (hnd : (pathsOf fs).Nodup) :
    (pathsOf (relocate fs src dst)).Nodup := by
  unfold relocate pathsOf
  rw [List.map_map]
  have hfnd : ((fs.filter (fun f => !(f.path == dst))).map FSFile.path).Nodup :=
    List.Nodup.sublist (List.Sublist.map FSFile.path (List.filter_sublist fs)) hnd
  have hinj := List.inj_on_of_nodup_map hfnd
  have hlnd : (fs.filter (fun f => !(f.path == dst))).Nodup := List.Nodup.of_map _ hfnd
  apply List.Nodup.map_on _ hlnd
  intro x hx y hy hxy
  have hxy' : (if x.path == src then dst else x.path) =
      (if y.path == src then dst else y.path) := by
    have e1 : (FSFile.path ∘ fun f => if f.path == src then { f with path := dst } else f) x =
        (if x.path == src then dst else x.path) := by
      show ((if x.path == src then { x with path := dst } else x) : FSFile).path = _
      split
      · rfl
      · rfl
    have e2 : (FSFile.path ∘ fun f => if f.path == src then { f with path := dst } else f) y =
        (if y.path == src then dst else y.path) := by
      show ((if y.path == src then { y with path := dst } else y) : FSFile).path = _
      split
      · rfl
      · rfl
    rw [← e1, ← e2]
    exact hxy
  by_cases hxs : (x.path == src) = true
  · by_cases hys : (y.path == src) = true
    · exact hinj hx hy ((eq_of_beq hxs).trans (eq_of_beq hys).symm)
    · exfalso
      rw [if_pos hxs, if_neg hys] at hxy'
      have h2 := (List.mem_filter.mp hy).2
      rw [← hxy'] at h2
      simp at h2
  · by_cases hys : (y.path == src) = true
    · exfalso
      rw [if_neg hxs, if_pos hys] at hxy'
      have h2 := (List.mem_filter.mp hx).2
      rw [hxy'] at h2
      simp at h2
    · rw [if_neg hxs, if_neg hys] at hxy'
      exact hinj hx hy hxy'

theorem destroyed_moved (s q a : FPath) (over : Option FSFile) :
    (FsOp.moved s q a over).destroyed = over.toList.map FSFile.content := by
  cases over <;> rfl

theorem shutil_move_ok_perm {fs : FS} {src dst : FPath} {fs2 : FS} {actual : FPath}
    {over : Option FSFile} (hnd : (pathsOf fs).Nodup)
    (h : shutil_move fs src dst = .ok (fs2, actual, over)) :
    (contentsOf fs2 ++ (over.toList.map FSFile.content)).Perm (contentsOf fs) ∧
      (pathsOf fs2).Nodup := by
  unfold shutil_move at h
  split at h
  · dsimp only at h
    split at h
    · cases h
    · rename_i hex
      injection h with h2
      simp only [Prod.mk.injEq] at h2
      obtain ⟨h3, h4, h5⟩ := h2
      subst h3
      subst h5
      have hnf : isFileAt fs (dst ++ [(src.getLast?).getD ""]) = false := by
        have hb := Bool.eq_false_iff.mpr hex
        unfold existsAt at hb
        exact (Bool.or_eq_false_iff.mp hb).1
      constructor
      · simp only [Option.toList_none, List.map_nil, List.append_nil]
        rw [contentsOf_relocate]
        have hperm := filter_dst_perm (dst ++ [(src.getLast?).getD ""]) fs hnd
        rw [find?_eq_none_of_not_isFileAt hnf] at hperm
        simpa using hperm
      · exact relocate_nodup fs src _ hnd
  · injection h with h2
    simp only [Prod.mk.injEq] at h2
    obtain ⟨h3, h4, h5⟩ := h2
    subst h3
    subst h5
    constructor
    · rw [contentsOf_relocate]
      have hperm := filter_dst_perm dst fs hnd
      rcases hf : fs.find? (fun f => f.path == dst) with _ | g
      · rw [hf] at hperm
        rw [hf]
        simpa using hperm
      · rw [hf] at hperm
        rw [hf]
        simpa using hperm
    · exact relocate_nodup fs src _ hnd

theorem tryMove_ok_perm {fs : FS} {ts : String} {mk : List FPath} {src dst : FPath}
    {fs2 : FS} {op : FsOp} (hnd : (pathsOf fs).Nodup)
    (h : tryMove fs ts mk src dst = .ok (fs2, op)) :
    (contentsOf fs2 ++ op.destroyed).Perm (contentsOf fs) ∧ (pathsOf fs2).Nodup := by
  unfold tryMove at h
  split at h
  · cases h
  · dsimp only at h
    rcases hsm : shutil_move fs src (generate_unique_filename fs dst ts) with e | r
    · rw [hsm] at h
      cases h
    · rw [hsm] at h
      injection h with h2
      simp only [Prod.mk.injEq] at h2
      obtain ⟨h3, h4⟩ := h2
      subst h3
      have hp := shutil_move_ok_perm hnd hsm
      rw [← h4, destroyed_moved]
      exact hp

theorem traceDestroyed_append (t1 t2 : List FsOp) :
    traceDestroyed (t1 ++ t2) = traceDestroyed t1 ++ traceDestroyed t2 := by
  unfold traceDestroyed
  rw [List.flatMap_append]

theorem perm_step_ok {C0 : List (List Nat)} {st : RunState} {fs2 : FS} {op : FsOp}
    (hI : (contentsOf st.fs ++ traceDestroyed st.trace).Perm C0)
    (hstep : (contentsOf fs2 ++ op.destroyed).Perm (contentsOf st.fs)) :
    (contentsOf fs2 ++ traceDestroyed (st.trace ++ [op])).Perm C0 := by
  rw [traceDestroyed_append]
  have h1 : traceDestroyed [op] = op.destroyed := by simp [traceDestroyed]
  rw [h1]
  have s1 : (contentsOf fs2 ++ (traceDestroyed st.trace ++ op.destroyed)).Perm
      (contentsOf fs2 ++ (op.destroyed ++ traceDestroyed st.trace)) :=
    List.Perm.append_left _ List.perm_append_comm
  have s2 : contentsOf fs2 ++ (op.destroyed ++ traceDestroyed st.trace) =
      (contentsOf fs2 ++ op.destroyed) ++ traceDestroyed st.trace :=
    (List.append_assoc _ _ _).symm
  have s3 : ((contentsOf fs2 ++ op.destroyed) ++ traceDestroyed st.trace).Perm
      (contentsOf st.fs ++ traceDestroyed st.trace) :=
    List.Perm.append_right _ hstep
  have s4 : (contentsOf fs2 ++ (op.destroyed ++ traceDestroyed st.trace)).Perm C0 := by
    rw [s2]
    exact s3.trans hI
  exact s1.trans s4

theorem perm_step_noop {C0 : List (List Nat)} {st : RunState} {op : FsOp}
    (hI : (contentsOf st.fs ++ traceDestroyed st.trace).Perm C0)
    (hop : op.destroyed = []) :
    (contentsOf st.fs ++ traceDestroyed (st.trace ++ [op])).Perm C0 := by
  rw [traceDestroyed_append]
  have h1 : traceDestroyed [op] = [] := by simp [traceDestroyed, hop]
  rw [h1, List.append_nil]
  exact hI

theorem tryMove_ok_not_delete {fs : FS} {ts : String} {mk : List FPath} {src dst : FPath}
    {fs2 : FS} {op : FsOp} (hd : dst ≠ [])
    (h : tryMove fs ts mk src dst = .ok (fs2, op)) : op.isDelete = false := by
  obtain ⟨a, o, _, hop, _⟩ := tryMove_ok_shape hd h
  rw [hop]
  rfl

theorem organizeStep_real_ok (cfg : Config) (useRecents : Bool) (now : Int) (ts : String)
    (st : RunState) (f : FSFile) (p : FS × FsOp) (hh : cfg.is_hidden f.name = false)
    (htm : tryMove st.fs ts [[(organizeAction cfg useRecents now f).1]] f.path
      [(organizeAction cfg useRecents now f).1, f.name] = .ok p) :
    (organizeStep cfg false useRecents now ts st f).fs = p.1 ∧
      (organizeStep cfg false useRecents now ts st f).trace = st.trace ++ [p.2] := by
  unfold organizeStep
  rw [hh, if_neg (by simp)]
  dsimp only
  rw [if_neg (by simp), htm]
  exact ⟨rfl, rfl⟩

theorem organizeStep_real_err (cfg : Config) (useRecents : Bool) (now : Int) (ts : String)
    (st : RunState) (f : FSFile) (e : String) (hh : cfg.is_hidden f.name = false)
    (htm : tryMove st.fs ts [[(organizeAction cfg useRecents now f).1]] f.path
      [(organizeAction cfg useRecents now f).1, f.name] = .error e) :
    (organizeStep cfg false useRecents now ts st f).fs = st.fs ∧
      (organizeStep cfg false useRecents now ts st f).trace = st.trace ++
        [.failedMove f.path [(organizeAction cfg useRecents now f).1, f.name]] := by
  unfold organizeStep
  rw [hh, if_neg (by simp)]
  dsimp only
  rw [if_neg (by simp), htm]
  exact ⟨rfl, rfl⟩

theorem archiveStep_real_ok (cfg : Config) (now : Int) (ts : String)
    (st : RunState) (f : FSFile) (p : FS × FsOp)
    (htm : tryMove st.fs ts [[cfg.archive_folder], [cfg.archive_folder, get_category cfg f.name]]
      f.path [cfg.archive_folder, get_category cfg f.name, f.name] = .ok p) :
    (archiveStep cfg false now ts st f).fs = p.1 ∧
      (archiveStep cfg false now ts st f).trace = st.trace ++ [p.2] := by
  unfold archiveStep
  dsimp only
  rw [if_neg (by simp), htm]
  exact ⟨rfl, rfl⟩

theorem archiveStep_real_err (cfg : Config) (now : Int) (ts : String)
    (st : RunState) (f : FSFile) (e : String)
    (htm : tryMove st.fs ts [[cfg.archive_folder], [cfg.archive_folder, get_category cfg f.name]]
      f.path [cfg.archive_folder, get_category cfg f.name, f.name] = .error e) :
    (archiveStep cfg false now ts st f).fs = st.fs ∧
      (archiveStep cfg false now ts st f).trace = st.trace ++
        [.failedMove f.path [cfg.archive_folder, get_category cfg f.name, f.name]] := by
  unfold archiveStep
  dsimp only
  rw [if_neg (by simp), htm]
  exact ⟨rfl, rfl⟩

theorem handleDupStep_real_ok (cfg : Config) (ts : String) (st : RunState) (f : FSFile)
    (p : FS × FsOp)
    (htm : tryMove st.fs ts
      ([cfg.duplicates_folder] :: mkdirChain (cfg.duplicates_folder :: f.path).dropLast)
      f.path (cfg.duplicates_folder :: f.path) = .ok p) :
    (handleDupStep cfg false ts st f).fs = p.1 ∧
      (handleDupStep cfg false ts st f).trace = st.trace ++ [p.2] := by
  unfold handleDupStep
  dsimp only
  rw [if_neg (by simp), htm]
  exact ⟨rfl, rfl⟩

theorem handleDupStep_real_err (cfg : Config) (ts : String) (st : RunState) (f : FSFile)
    (e : String)
    (htm : tryMove st.fs ts
      ([cfg.duplicates_folder] :: mkdirChain (cfg.duplicates_folder :: f.path).dropLast)
      f.path (cfg.duplicates_folder :: f.path) = .error e) :
    (handleDupStep cfg false ts st f).fs = st.fs ∧
      (handleDupStep cfg false ts st f).trace = st.trace ++
        [.failedMove f.path (cfg.duplicates_folder :: f.path)] := by
  unfold handleDupStep
  dsimp only
  rw [if_neg (by simp), htm]
  exact ⟨rfl, rfl⟩

theorem organize_fold_perm (cfg : Config) (useRecents : Bool) (now : Int) (ts : String)
    (C0 : List (List Nat)) :
    ∀ (files : List FSFile) (st : RunState),
      (contentsOf st.fs ++ traceDestroyed st.trace).Perm C0 → (pathsOf st.fs).Nodup →
      ((contentsOf (files.foldl (organizeStep cfg false useRecents now ts) st).fs ++
          traceDestroyed (files.foldl (organizeStep cfg false useRecents now ts) st).trace).Perm
        C0 ∧
        (pathsOf (files.foldl (organizeStep cfg false useRecents now ts) st).fs).Nodup) := by
  intro files
  induction files with
  | nil => intro st hI hnd; exact ⟨hI, hnd⟩
  | cons f rest ih =>
    intro st hI hnd
    rw [List.foldl_cons]
    apply ih
    all_goals
      by_cases hh : cfg.is_hidden f.name = true
    · rw [organizeStep_hidden cfg false useRecents now ts st f hh]
      exact hI
    · have hh' := Bool.eq_false_iff.mpr hh
      rcases htm : tryMove st.fs ts [[(organizeAction cfg useRecents now f).1]] f.path
          [(organizeAction cfg useRecents now f).1, f.name] with e | p
      · obtain ⟨hfs, htr⟩ := organizeStep_real_err cfg useRecents now ts st f e hh' htm
        rw [hfs, htr]
        exact perm_step_noop hI rfl
      · obtain ⟨hfs, htr⟩ := organizeStep_real_ok cfg useRecents now ts st f p hh' htm
        rw [hfs, htr]
        exact perm_step_ok hI (tryMove_ok_perm hnd htm).1
    · rw [organizeStep_hidden cfg false useRecents now ts st f hh]
      exact hnd
    · have hh' := Bool.eq_false_iff.mpr hh
      rcases htm : tryMove st.fs ts [[(organizeAction cfg useRecents now f).1]] f.path
          [(organizeAction cfg useRecents now f).1, f.name] with e | p
      · obtain ⟨hfs, htr⟩ := organizeStep_real_err cfg useRecents now ts st f e hh' htm
        rw [hfs]
        exact hnd
      · obtain ⟨hfs, htr⟩ := organizeStep_real_ok cfg useRecents now ts st f p hh' htm
        rw [hfs]
        exact (tryMove_ok_perm hnd htm).2

theorem archive_fold_perm (cfg : Config) (now : Int) (ts : String) (C0 : List (List Nat)) :
    ∀ (files : List FSFile) (st : RunState),
      (contentsOf st.fs ++ traceDestroyed st.trace).Perm C0 → (pathsOf st.fs).Nodup →
      ((contentsOf (files.foldl (archiveStep cfg false now ts) st).fs ++
          traceDestroyed (files.foldl (archiveStep cfg false now ts) st).trace).Perm C0 ∧
        (pathsOf (files.foldl (archiveStep cfg false now ts) st).fs).Nodup) := by
  intro files
  induction files with
  | nil => intro st hI hnd; exact ⟨hI, hnd⟩
  | cons f rest ih =>
    intro st hI hnd
    rw [List.foldl_cons]
    apply ih
    · rcases htm : tryMove st.fs ts
          [[cfg.archive_folder], [cfg.archive_folder, get_category cfg f.name]] f.path
          [cfg.archive_folder, get_category cfg f.name, f.name] with e | p
      · obtain ⟨hfs, htr⟩ := archiveStep_real_err cfg now ts st f e htm
        rw [hfs, htr]
        exact perm_step_noop hI rfl
      · obtain ⟨hfs, htr⟩ := archiveStep_real_ok cfg now ts st f p htm
        rw [hfs, htr]
        exact perm_step_ok hI (tryMove_ok_perm hnd htm).1
    · rcases htm : tryMove st.fs ts
          [[cfg.archive_folder], [cfg.archive_folder, get_category cfg f.name]] f.path
          [cfg.archive_folder, get_category cfg f.name, f.name] with e | p
      · obtain ⟨hfs, htr⟩ := archiveStep_real_err cfg now ts st f e htm
        rw [hfs]
        exact hnd
      · obtain ⟨hfs, htr⟩ := archiveStep_real_ok cfg now ts st f p htm
        rw [hfs]
        exact (tryMove_ok_perm hnd htm).2

theorem handleDup_fold_perm (cfg : Config) (ts : String) (C0 : List (List Nat)) :
    ∀ (dups : List FSFile) (st : RunState),
      (contentsOf st.fs ++ traceDestroyed st.trace).Perm C0 → (pathsOf st.fs).Nodup →
      ((contentsOf (dups.foldl (handleDupStep cfg false ts) st).fs ++
          traceDestroyed (dups.foldl (handleDupStep cfg false ts) st).trace).Perm C0 ∧
        (pathsOf (dups.foldl (handleDupStep cfg false ts) st).fs).Nodup) := by
  intro dups
  induction dups with
  | nil => intro st hI hnd; exact ⟨hI, hnd⟩
  | cons f rest ih =>
    intro st hI hnd
    rw [List.foldl_cons]
    apply ih
    · rcases htm : tryMove st.fs ts
          ([cfg.duplicates_folder] :: mkdirChain (cfg.duplicates_folder :: f.path).dropLast)
          f.path (cfg.duplicates_folder :: f.path) with e | p
      · obtain ⟨hfs, htr⟩ := handleDupStep_real_err cfg ts st f e htm
        rw [hfs, htr]
        exact perm_step_noop hI rfl
      · obtain ⟨hfs, htr⟩ := handleDupStep_real_ok cfg ts st f p htm
        rw [hfs, htr]
        exact perm_step_ok hI (tryMove_ok_perm hnd htm).1
    · rcases htm : tryMove st.fs ts
          ([cfg.duplicates_folder] :: mkdirChain (cfg.duplicates_folder :: f.path).dropLast)
          f.path (cfg.duplicates_folder :: f.path) with e | p
      · obtain ⟨hfs, htr⟩ := handleDupStep_real_err cfg ts st f e htm
        rw [hfs]
        exact hnd
      · obtain ⟨hfs, htr⟩ := handleDupStep_real_ok cfg ts st f p htm
        rw [hfs]
        exact (tryMove_ok_perm hnd htm).2

theorem handle_fold_perm (cfg : Config) (ts : String) (C0 : List (List Nat)) :
    ∀ (groups : List (String × List FSFile)) (st : RunState),
      (contentsOf st.fs ++ traceDestroyed st.trace).Perm C0 → (pathsOf st.fs).Nodup →
      ((contentsOf (groups.foldl
          (fun st g => ((sortByMtime g.2).drop 1).foldl (handleDupStep cfg false ts) st)
          st).fs ++
          traceDestroyed (groups.foldl
            (fun st g => ((sortByMtime g.2).drop 1).foldl (handleDupStep cfg false ts) st)
            st).trace).Perm C0 ∧
        (pathsOf (groups.foldl
          (fun st g => ((sortByMtime g.2).drop 1).foldl (handleDupStep cfg false ts) st)
          st).fs).Nodup) := by
  intro groups
  induction groups with
  | nil => intro st hI hnd; exact ⟨hI, hnd⟩
  | cons g rest ih =>
    intro st hI hnd
    rw [List.foldl_cons]
    obtain ⟨hI2, hnd2⟩ := handleDup_fold_perm cfg ts C0 ((sortByMtime g.2).drop 1) st hI hnd
    exact ih _ hI2 hnd2

theorem organize_fold_no_delete (cfg : Config) (useRecents : Bool) (now : Int) (ts : String) :
    ∀ (files : List FSFile) (st : RunState),
      (∀ op ∈ st.trace, op.isDelete = false) →
      ∀ op ∈ (files.foldl (organizeStep cfg false useRecents now ts) st).trace,
        op.isDelete = false := by
  intro files
  induction files with
  | nil => intro st h; exact h
  | cons f rest ih =>
    intro st h
    rw [List.foldl_cons]
    apply ih
    by_cases hh : cfg.is_hidden f.name = true
    · rw [organizeStep_hidden cfg false useRecents now ts st f hh]
      exact h
    · have hh' := Bool.eq_false_iff.mpr hh
      rcases htm : tryMove st.fs ts [[(organizeAction cfg useRecents now f).1]] f.path
          [(organizeAction cfg useRecents now f).1, f.name] with e | p
      · obtain ⟨_, htr⟩ := organizeStep_real_err cfg useRecents now ts st f e hh' htm
        rw [htr]
        intro op hop
        rcases List.mem_append.mp hop with h1 | h2
        · exact h op h1
        · simp only [List.mem_singleton] at h2
          rw [h2]
          rfl
      · obtain ⟨_, htr⟩ := organizeStep_real_ok cfg useRecents now ts st f p hh' htm
        rw [htr]
        intro op hop
        rcases List.mem_append.mp hop with h1 | h2
        · exact h op h1
        · simp only [List.mem_singleton] at h2
          rw [h2]
          exact tryMove_ok_not_delete (by simp) htm

theorem archive_fold_no_delete (cfg : Config) (now : Int) (ts : String) :
    ∀ (files : List FSFile) (st : RunState),
      (∀ op ∈ st.trace, op.isDelete = false) →
      ∀ op ∈ (files.foldl (archiveStep cfg false now ts) st).trace, op.isDelete = false := by
  intro files
  induction files with
  | nil => intro st h; exact h
  | cons f rest ih =>
    intro st h
    rw [List.foldl_cons]
    apply ih
    rcases htm : tryMove st.fs ts
        [[cfg.archive_folder], [cfg.archive_folder, get_category cfg f.name]] f.path
        [cfg.archive_folder, get_category cfg f.name, f.name] with e | p
    · obtain ⟨_, htr⟩ := archiveStep_real_err cfg now ts st f e htm
      rw [htr]
      intro op hop
      rcases List.mem_append.mp hop with h1 | h2
      · exact h op h1
      · simp only [List.mem_singleton] at h2
        rw [h2]
        rfl
    · obtain ⟨_, htr⟩ := archiveStep_real_ok cfg now ts st f p htm
      rw [htr]
      intro op hop
      rcases List.mem_append.mp hop with h1 | h2
      · exact h op h1
      · simp only [List.mem_singleton] at h2
        rw [h2]
        exact tryMove_ok_not_delete (by simp) htm

theorem handleDup_fold_no_delete (cfg : Config) (ts : String) :
    ∀ (dups : List FSFile) (st : RunState),
      (∀ op ∈ st.trace, op.isDelete = false) →
      ∀ op ∈ (dups.foldl (handleDupStep cfg false ts) st).trace, op.isDelete = false := by
  intro dups
  induction dups with
  | nil => intro st h; exact h
  | cons f rest ih =>
    intro st h
    rw [List.foldl_cons]
    apply ih
    rcases htm : tryMove st.fs ts
        ([cfg.duplicates_folder] :: mkdirChain (cfg.duplicates_folder :: f.path).dropLast)
        f.path (cfg.duplicates_folder :: f.path) with e | p
    · obtain ⟨_, htr⟩ := handleDupStep_real_err cfg ts st f e htm
      rw [htr]
      intro op hop
      rcases List.mem_append.mp hop with h1 | h2
      · exact h op h1
      · simp only [List.mem_singleton] at h2
        rw [h2]
        rfl
    · obtain ⟨_, htr⟩ := handleDupStep_real_ok cfg ts st f p htm
      rw [htr]
      intro op hop
      rcases List.mem_append.mp hop with h1 | h2
      · exact h op h1
      · simp only [List.mem_singleton] at h2
        rw [h2]
        exact tryMove_ok_not_delete (by simp) htm

theorem handle_fold_no_delete (cfg : Config) (ts : String) :
    ∀ (groups : List (String × List FSFile)) (st : RunState),
      (∀ op ∈ st.trace, op.isDelete = false) →
      ∀ op ∈ (groups.foldl
        (fun st g => ((sortByMtime g.2).drop 1).foldl (handleDupStep cfg false ts) st)
        st).trace, op.isDelete = false := by
  intro groups
  induction groups with
  | nil => intro st h; exact h
  | cons g rest ih =>
    intro st h
    rw [List.foldl_cons]
    exact ih _ (handleDup_fold_no_delete cfg ts _ st h)

theorem cleanup_fold_fs (now : Int) :
    ∀ (files : List FSFile) (st : RunState),
      (files.foldl (cleanupStep false now) st).fs =
        st.fs.filter (fun g => !files.any (fun f => g.path == f.path)) := by
  intro files
  induction files with
  | nil => intro st; simp
  | cons f rest ih =>
    intro st
    rw [List.foldl_cons, ih]
    have hstep : (cleanupStep false now st f).fs =
        st.fs.filter (fun g => !(g.path == f.path)) := rfl
    rw [hstep, List.filter_filter]
    apply List.filter_congr
    intro g _
    simp [List.any_cons, Bool.not_or, Bool.and_comm]

theorem cleanup_removes_exactly (fs : FS) (cfg : Config) (now : Int)
    (hnd : (pathsOf fs).Nodup) :
    (cleanup_temp_files fs false cfg now).fs =
      fs.filter (fun g => !(g.path.length == 1 && is_auto_deletable cfg now g)) := by
  unfold cleanup_temp_files
  rw [cleanup_fold_fs now _ _]
  apply List.filter_congr
  intro g hg
  have hinj := List.inj_on_of_nodup_map (l := fs) hnd
  congr 1
  by_cases hc : (g.path.length == 1 && is_auto_deletable cfg now g) = true
  · rw [hc]
    apply List.any_eq_true.mpr
    refine ⟨g, ?_, by simp⟩
    have hc2 : (g.path.length == 1) = true ∧ is_auto_deletable cfg now g = true := by
      simpa using hc
    apply List.mem_filter.mpr
    exact ⟨List.mem_filter.mpr ⟨hg, hc2.1⟩, hc2.2⟩
  · have hc' := Bool.eq_false_iff.mpr hc
    rw [hc']
    apply Bool.eq_false_iff.mpr
    intro hany
    rcases List.any_eq_true.mp hany with ⟨f, hf, hbeq⟩
    have hfm := List.mem_filter.mp hf
    have hfm2 := List.mem_filter.mp hfm.1
    have hfg : g = f := hinj hg hfm2.1 (eq_of_beq hbeq)
    rw [← hfg] at hfm
    rw [← hfg] at hfm2
    rw [hfm2.2, hfm.2] at hc'
    simp at hc'

set_option maxRecDepth 100000 in
/-- C1 counterexample: a same-second timestamp collision makes a non-dry
`organize_files` run overwrite a file, so the multiset of contents under the
root shrinks (content `[3]` is destroyed) even though paths were distinct.
This falsifies "the multiset of file contents ... is unchanged (files are
only moved, never removed)" as a universal statement. -/
theorem C1_counterexample :
    ¬ (contentsOf (organize_files
        [⟨["report.pdf"], [1], 0⟩, ⟨["Documents", "report.pdf"], [2], 0⟩,
         ⟨["Documents", "report_20240131_235959.pdf"], [3], 0⟩] false false DEFAULT_CONFIG 0
        "20240131_235959").fs).Perm
      (contentsOf [⟨["report.pdf"], [1], 0⟩, ⟨["Documents", "report.pdf"], [2], 0⟩,
         ⟨["Documents", "report_20240131_235959.pdf"], [3], 0⟩]) := by
  decide

/-- C1 (amended): for every directory state with distinct file paths, after a
non-dry-run `organize_files`, `archive_old_files` or `handle_duplicates` the
multiset of file contents under the root is unchanged except for the entries
destroyed by recorded same-second timestamp-collision overwrites (none of
these runs ever deletes a file); `cleanup_temp_files` is the sole deletion
path and removes exactly the top-level files whose lowercased extension is
in `auto_delete_extensions` and whose age strictly exceeds
`auto_delete_age_days`. -/
theorem C1_content_preservation (fs : FS) (useRecents : Bool) (cfg : Config) (now : Int)
    (ts : String) (hnd : (pathsOf fs).Nodup) :
    ((contentsOf (organize_files fs false useRecents cfg now ts).fs ++
        traceDestroyed (organize_files fs false useRecents cfg now ts).trace).Perm
      (contentsOf fs) ∧
      (∀ op ∈ (organize_files fs false useRecents cfg now ts).trace,
        op.isDelete = false)) ∧
    ((contentsOf (archive_old_files fs false cfg now ts).fs ++
        traceDestroyed (archive_old_files fs false cfg now ts).trace).Perm (contentsOf fs) ∧
      (∀ op ∈ (archive_old_files fs false cfg now ts).trace, op.isDelete = false)) ∧
    ((contentsOf (handle_duplicates fs false cfg ts).fs ++
        traceDestroyed (handle_duplicates fs false cfg ts).trace).Perm (contentsOf fs) ∧
      (∀ op ∈ (handle_duplicates fs false cfg ts).trace, op.isDelete = false)) ∧
    (cleanup_temp_files fs false cfg now).fs =
      fs.filter (fun g => !(g.path.length == 1 && is_auto_deletable cfg now g)) := by
  have hI0 : (contentsOf ({ fs := fs, res := {}, trace := [] } : RunState).fs ++
      traceDestroyed ({ fs := fs, res := {}, trace := [] } : RunState).trace).Perm
      (contentsOf fs) := by
    simp [traceDestroyed]
  refine ⟨⟨?_, ?_⟩, ⟨?_, ?_⟩, ⟨?_, ?_⟩, cleanup_removes_exactly fs cfg now hnd⟩
  · exact (organize_fold_perm cfg useRecents now ts (contentsOf fs) (topFiles fs)
      { fs := fs, res := {}, trace := [] } hI0 hnd).1
  · exact organize_fold_no_delete cfg useRecents now ts (topFiles fs)
      { fs := fs, res := {}, trace := [] } (by intro op hop; cases hop)
  · exact (archive_fold_perm cfg now ts (contentsOf fs)
      ((topFiles fs).filter (fun f => !cfg.is_hidden f.name && is_old_file cfg now f.mtime))
      { fs := fs, res := {}, trace := [] } hI0 hnd).1
  · exact archive_fold_no_delete cfg now ts
      ((topFiles fs).filter (fun f => !cfg.is_hidden f.name && is_old_file cfg now f.mtime))
      { fs := fs, res := {}, trace := [] } (by intro op hop; cases hop)
  · exact (handle_fold_perm cfg ts (contentsOf fs) (find_duplicates fs true cfg)
      { fs := fs, res := {}, trace := [] } hI0 hnd).1
  · exact handle_fold_no_delete cfg ts (find_duplicates fs true cfg)
      { fs := fs, res := {}, trace := [] } (by intro op hop; cases hop)

set_option maxRecDepth 100000 in
/-- Witness for C1: a small directory with distinct paths - organize, archive
and duplicate handling preserve the content multiset (no overwrites occur,
so the destroyed lists are empty) and cleanup removes exactly the old
`.ica` file. -/
theorem C1_witness :
    (pathsOf [⟨["a.ica"], [1], 0⟩, ⟨["b.txt"], [7], 0⟩, ⟨["c.txt"], [7], 0⟩]).Nodup ∧
      (contentsOf (organize_files [⟨["a.ica"], [1], 0⟩, ⟨["b.txt"], [7], 0⟩,
          ⟨["c.txt"], [7], 0⟩] false false DEFAULT_CONFIG 1000000000 "TS").fs ++
        traceDestroyed (organize_files [⟨["a.ica"], [1], 0⟩, ⟨["b.txt"], [7], 0⟩,
          ⟨["c.txt"], [7], 0⟩] false false DEFAULT_CONFIG 1000000000 "TS").trace).Perm
        (contentsOf [⟨["a.ica"], [1], 0⟩, ⟨["b.txt"], [7], 0⟩, ⟨["c.txt"], [7], 0⟩]) ∧
      (cleanup_temp_files [⟨["a.ica"], [1], 0⟩, ⟨["b.txt"], [7], 0⟩, ⟨["c.txt"], [7], 0⟩]
          false DEFAULT_CONFIG 1000000000).fs =
        [⟨["a.ica"], [1], 0⟩, ⟨["b.txt"], [7], 0⟩, ⟨["c.txt"], [7], 0⟩].filter
          (fun g => !(g.path.length == 1 && is_auto_deletable DEFAULT_CONFIG 1000000000 g)) := by
  have h := C1_content_preservation
    [⟨["a.ica"], [1], 0⟩, ⟨["b.txt"], [7], 0⟩, ⟨["c.txt"], [7], 0⟩] false DEFAULT_CONFIG
    1000000000 "TS" (by decide)
  exact ⟨by decide, h.1.1, h.2.2.2⟩

end FileOrg
